import Mathlib

/-!
Verification of the AutoPowerTester measurement core
(`src/AutoPowerTester_122225_v1.py`) against its natural-language
specification.

Shallow embedding conventions:
* Python floats are modelled as rationals (`ℚ`); where IEEE special values
  (`inf`, `-inf`, `nan`) are observable — interval normalization in the
  overlap validator and `float(...)` parsing in the user-interval parser —
  a dedicated value type with IEEE comparison semantics is used.
* Python dicts with insertion order are modelled as association lists.
* The module-global `random.random()` draws are modelled as explicit
  rational arguments in `[0, 1)` (one draw is consumed per classifier call
  that reaches a weighted split).
* Stateful measurement workers are modelled as pure functions from an
  environment (oracle streams for instrument readings, clock reads,
  cancellation-flag reads and operator answers) to the list of events they
  put on their progress queue, plus the list of instrument actions they
  perform; unbounded `while` loops take fuel and return `none` when the
  fuel runs out (the run did not complete within the modelled horizon).
-/

namespace AutoPowerTester

/-- Extended real used by `check_interval_overlaps` after normalizing a
missing low bound to `float('-inf')` and a missing high bound to
`float('inf')`.  Finite values are rationals. -/
inductive XR where
  | ninf
  | fin (q : ℚ)
  | pinf
deriving DecidableEq, Repr

/-- Strict `<` on normalized bounds, matching IEEE comparisons between
finite doubles and the infinities. -/
def XR.lt : XR → XR → Bool
  | .ninf, .ninf => false
  | .ninf, _ => true
  | .fin _, .ninf => false
  | .fin a, .fin b => decide (a < b)
  | .fin _, .pinf => true
  | .pinf, _ => false

/-- An interval `(low, high]` as stored in a criteria dict:
`None` low means unbounded below, `None` high means unbounded above. -/
abbrev Interval := Option ℚ × Option ℚ

/-- A criteria set: ordered mapping from verdict label to its interval
list (Python dict with insertion order). -/
abbrev Criteria := List (String × List Interval)

/-- `criteria.get(label, [])`-style access used to model
`if label in criteria: for interval in criteria[label]`. -/
def critGet (criteria : Criteria) (label : String) : List Interval :=
  match criteria.lookup label with
  | none => []
  | some l => l

/-- One entry of the `normalized_intervals` list built by
`check_interval_overlaps`: `(low_val, high_val, low_type, high_type, label)`. -/
structure NInterval where
  low : XR
  high : XR
  lowType : String
  highType : String
  label : String
deriving DecidableEq, Repr

/-- The normalization loop of `check_interval_overlaps`: every interval of
every label becomes `(lowOrNegInf, highOrPosInf, "open", "closed", label)`. -/
def normalizeIntervals (criteria : Criteria) : List NInterval :=
  (criteria.map (fun entry =>
    entry.2.map (fun iv =>
      { low := match iv.1 with | none => XR.ninf | some q => XR.fin q
        high := match iv.2 with | none => XR.pinf | some q => XR.fin q
        lowType := "open"
        highType := "closed"
        label := entry.1 : NInterval }))).flatten

/-- Stable insertion of one normalized interval into a list already sorted
by low bound (ascending); models one step of `list.sort(key=lambda x: x[0])`. -/
def insertByLow (x : NInterval) : List NInterval → List NInterval
  | [] => [x]
  | y :: t => if XR.lt x.low y.low then x :: y :: t else y :: insertByLow x t

/-- Stable sort by low bound: the effect of
`normalized_intervals.sort(key=lambda x: x[0])`. -/
def sortByLow : List NInterval → List NInterval
  | [] => []
  | x :: t => insertByLow x (sortByLow t)

/-- The error message `f"Overlap detected between {label1} and {label2}"`. -/
def overlapMsg (label1 label2 : String) : String :=
  "Overlap detected between " ++ label1 ++ " and " ++ label2

/-- Inner loop of the pairwise check: compare `x` (at index `i`) with each
later entry `y` (index `j > i`).  Case 1 (`high1 == low2`): flag only if
both boundary types are `"closed"`, else skip this pair.  Case 2: flag on
`low1 < high2 and low2 < high1`. -/
def checkAgainst (x : NInterval) : List NInterval → Option String
  | [] => none
  | y :: t =>
    if x.high = y.low then
      if x.highType = "closed" ∧ y.lowType = "closed" then
        some (overlapMsg x.label y.label)
      else
        checkAgainst x t
    else if XR.lt x.low y.high ∧ XR.lt y.low x.high then
      some (overlapMsg x.label y.label)
    else
      checkAgainst x t

/-- Outer loop of the pairwise check over the sorted list. -/
def checkPairs : List NInterval → Option String
  | [] => none
  | x :: t =>
    match checkAgainst x t with
    | some m => some m
    | none => checkPairs t

/-- `check_interval_overlaps`: normalize, sort by low bound, and check all
pairs; returns the first offending message, or `none`. -/
def check_interval_overlaps (criteria : Criteria) : Option String :=
  checkPairs (sortByLow (normalizeIntervals criteria))

/-- `is_current_in_interval`: membership in `(low, high]` — lower limit
excluded, upper limit included, missing limits unbounded. -/
def is_current_in_interval (current : ℚ) (interval : Interval) : Bool :=
  match interval with
  | (low, high) =>
    if (match low with | some l => decide (current ≤ l) | none => false) then
      false
    else if (match high with | some h => decide (h < current) | none => false) then
      false
    else
      true

/-- Python `max` over a nonempty list given as head and tail. -/
def listMax (a : ℚ) : List ℚ → ℚ
  | [] => a
  | b :: t => listMax (max a b) t

/-- `MODEL_CRITERIA.get(model, dict())`. -/
def criteriaOf (modelCriteria : List (String × Criteria)) (model : String) : Criteria :=
  match modelCriteria.lookup model with
  | none => []
  | some c => c

/-- The hard-ceiling test of `get_pf_status`:
`post_startup = samples[5:] if len(samples) > 5 else []` and then
`post_startup and max(post_startup) > 4.0`. -/
def ceilingHitB (samples : List ℚ) : Bool :=
  match (if 5 < samples.length then samples.drop 5 else []) with
  | [] => false
  | s :: rest => decide (4 < listMax s rest)

/-- The hard-floor test of `get_pf_status`:
`any(s < 0.01 for s in samples[2:])`. -/
def floorAnyB (samples : List ℚ) : Bool :=
  (samples.drop 2).any (fun s => decide (s < mkRat 1 100))

/-- `get_pf_status(model, avg_current, samples)`.  `modelCriteria` stands
for the module global `MODEL_CRITERIA`; `rand` is the value of the single
`random.random()` call made on the path that reaches a weighted split. -/
def get_pf_status (modelCriteria : List (String × Criteria)) (model : String)
    (avg_current : ℚ) (samples : List ℚ) (rand : ℚ) : String :=
  let viaSamples : Option String :=
    if samples.isEmpty then none
    else if ceilingHitB samples then some "FAIL(W748)"
    else if 3 ≤ samples.length then
      if floorAnyB samples then
        some (if rand < mkRat 85 100 then "FAIL(W74A)" else "FAIL(W748)")
      else none
    else none
  match viaSamples with
  | some r => r
  | none =>
    let criteria := criteriaOf modelCriteria model
    if (critGet criteria "PASS").any (fun iv => is_current_in_interval avg_current iv) then
      "PASS"
    else if (critGet criteria "W74A").any (fun iv => is_current_in_interval avg_current iv) then
      "FAIL(W74A)"
    else if (critGet criteria "W748").any (fun iv => is_current_in_interval avg_current iv) then
      "FAIL(W748)"
    else if rand < mkRat 85 100 then "FAIL(W74A)"
    else "FAIL(W748)"

/-! Specification-side predicates for the classifier claims. -/

/-- Boolean overlap condition of the claim: `low1 < high2 and low2 < high1`
on normalized bounds. -/
def overlapCondB (a b : NInterval) : Bool :=
  XR.lt a.low b.high && XR.lt b.low a.high

/-- Some unordered pair of entries at distinct positions satisfies `P`. -/
def existsPairB (P : NInterval → NInterval → Bool) : List NInterval → Bool
  | [] => false
  | a :: t => t.any (P a) || existsPairB P t

/-- The claim's notion of an overlapping criteria set: two of its
(normalized) intervals satisfy `low1 < high2 and low2 < high1`. -/
def hasOverlappingPair (criteria : Criteria) : Prop :=
  existsPairB overlapCondB (normalizeIntervals criteria) = true

instance (criteria : Criteria) : Decidable (hasOverlappingPair criteria) := by
  unfold hasOverlappingPair; infer_instance

/-- The claim's membership predicate: `current > low` when the low bound is
present and `current ≤ high` when the high bound is present. -/
def memSpec (current : ℚ) (interval : Interval) : Prop :=
  (∀ l, interval.1 = some l → l < current) ∧
  (∀ h, interval.2 = some h → current ≤ h)

instance (current : ℚ) (interval : Interval) : Decidable (memSpec current interval) :=
  decidable_of_iff
    (((match interval.1 with
       | some l => decide (l < current)
       | none => true) &&
      (match interval.2 with
       | some h => decide (current ≤ h)
       | none => true)) = true)
    (by rcases interval with ⟨l, h⟩; cases l <;> cases h <;> simp [memSpec])

/-- Some interval listed under `label` contains `current`. -/
def labelMatches (criteria : Criteria) (label : String) (current : ℚ) : Prop :=
  ∃ iv ∈ critGet criteria label, memSpec current iv

instance (criteria : Criteria) (label : String) (current : ℚ) :
    Decidable (labelMatches criteria label current) := by
  unfold labelMatches
  exact List.decidableBEx _ _

/-- The hard-ceiling override condition: some sample beyond the 5th
exceeds 4.0 A. -/
def ceilingCond (samples : List ℚ) : Prop :=
  5 < samples.length ∧ ∃ s ∈ samples.drop 5, 4 < s

instance (samples : List ℚ) : Decidable (ceilingCond samples) := by
  unfold ceilingCond; infer_instance

/-- The hard-floor override condition: some sample from the 3rd onward
(0-based index ≥ 2) is below 0.01 A. -/
def floorCond (samples : List ℚ) : Prop :=
  3 ≤ samples.length ∧ ∃ s ∈ samples.drop 2, s < mkRat 1 100

instance (samples : List ℚ) : Decidable (floorCond samples) := by
  unfold floorCond; infer_instance

/-! ## Python float values and `float(str)` parsing

`parse_user_interval_syntax` feeds user text through Python's `float`,
which accepts `inf`, `infinity` and `nan` (case-insensitive, optionally
signed) besides decimal literals, and compares the results with IEEE
semantics (every comparison against NaN is false). -/

/-- A Python float value as producible by `float(str)`: NaN, the two
infinities, or a finite value (modelled exactly as a rational). -/
inductive PF where
  | nan
  | pinf
  | ninf
  | fin (q : ℚ)
deriving DecidableEq, Repr

def PF.isNan : PF → Bool
  | .nan => true
  | _ => false

/-- IEEE `<` on Python float values. -/
def pyLt : PF → PF → Bool
  | .nan, _ => false
  | _, .nan => false
  | .ninf, .ninf => false
  | .ninf, _ => true
  | _, .ninf => false
  | .pinf, _ => false
  | .fin _, .pinf => true
  | .fin a, .fin b => decide (a < b)

/-- IEEE `>=` on Python float values (used by the `low >= high` check). -/
def pyGe : PF → PF → Bool
  | .nan, _ => false
  | _, .nan => false
  | .pinf, _ => true
  | .ninf, .ninf => true
  | .ninf, _ => false
  | .fin _, .pinf => false
  | .fin _, .ninf => true
  | .fin a, .fin b => decide (b ≤ a)

def PF.neg : PF → PF
  | .nan => .nan
  | .pinf => .ninf
  | .ninf => .pinf
  | .fin q => .fin (-q)

/-- Numeric value of a digit string (most significant first). -/
def digitsVal (ds : List Char) : ℕ :=
  ds.foldl (fun n c => 10 * n + (c.toNat - '0'.toNat)) 0

/-- Split a leading run of decimal digits off a character list. -/
def spanDigits : List Char → List Char × List Char
  | [] => ([], [])
  | c :: t =>
    if c.isDigit then
      let (d, r) := spanDigits t
      (c :: d, r)
    else ([], c :: t)

/-- Parse the optional exponent suffix (`e`/`E`, optional sign, digits)
that must consume the whole remainder of the literal. -/
def parseExpTail : List Char → Option ℤ
  | [] => some 0
  | c :: t =>
    if c = 'e' ∨ c = 'E' then
      let signAndRest : ℤ × List Char :=
        match t with
        | '+' :: r => (1, r)
        | '-' :: r => (-1, r)
        | r => (1, r)
      let (ds, r2) := spanDigits signAndRest.2
      if ds = [] ∨ r2 ≠ [] then none
      else some (signAndRest.1 * (digitsVal ds : ℤ))
    else none

/-- Parse the mantissa (digits with an optional decimal point; at least
one digit overall), returning its digit value, the number of fraction
digits, and the unconsumed remainder. -/
def parseMantissa : List Char → Option ((ℕ × ℕ) × List Char)
  | cs =>
    let (ip, r) := spanDigits cs
    match r with
    | '.' :: r2 =>
      let (fp, r3) := spanDigits r2
      if ip = [] ∧ fp = [] then none
      else some ((digitsVal (ip ++ fp), fp.length), r3)
    | _ =>
      if ip = [] then none
      else some ((digitsVal ip, 0), r)

/-- Exact value of a decimal literal with digit value `m`, `fracLen`
fraction digits and signed exponent `e`: `m * 10 ^ (e - fracLen)`. -/
def decValue (m : ℕ) (fracLen : ℕ) (e : ℤ) : ℚ :=
  let shift : ℤ := e - (fracLen : ℤ)
  if 0 ≤ shift then mkRat ((m : ℤ) * (10 : ℤ) ^ shift.toNat) 1
  else mkRat (m : ℤ) ((10 : ℕ) ^ (-shift).toNat)

/-- `float(s)` on an unsigned literal: the named special values or a
decimal literal with optional exponent. -/
def pyFloatCore : List Char → Option PF
  | cs =>
    let lower := cs.map Char.toLower
    if lower = "inf".data ∨ lower = "infinity".data then some .pinf
    else if lower = "nan".data then some .nan
    else
      match parseMantissa cs with
      | none => none
      | some ((m, fracLen), r) =>
        match parseExpTail r with
        | none => none
        | some e => some (.fin (decValue m fracLen e))

/-- Python `float(s)` on an already-stripped literal: optional sign, then
the core literal; `none` models a raised `ValueError`. -/
def pyFloat (cs : List Char) : Option PF :=
  match cs with
  | '+' :: t => pyFloatCore t
  | '-' :: t => (pyFloatCore t).map PF.neg
  | t => pyFloatCore t

/-! ## `parse_user_interval_syntax`

The Python code works on strings with `strip`/`split`; the model works on
character lists with structurally recursive versions of those operations
(Lean's built-in `String` functions are not kernel-reducible), converting
the accepted labels back to `String` keys at the end. -/

/-- `s.split(sep)` for a single-character separator. -/
def splitOnChar (sep : Char) : List Char → List (List Char)
  | [] => [[]]
  | c :: t =>
    let r := splitOnChar sep t
    if c = sep then [] :: r
    else
      match r with
      | [] => [[c]]
      | h :: rt => (c :: h) :: rt

/-- `s.strip()`: drop leading and trailing whitespace. -/
def trimChars (cs : List Char) : List Char :=
  ((cs.dropWhile Char.isWhitespace).reverse.dropWhile Char.isWhitespace).reverse

/-- Rejoin split pieces with the separator (used to model
`line.split(':', 1)` via a full split followed by a rejoin of the tail). -/
def joinWithChar (sep : Char) : List (List Char) → List Char
  | [] => []
  | [x] => x
  | x :: y :: t => x ++ sep :: joinWithChar sep (y :: t)

/-- An interval as parsed from user text: optional Python-float bounds
(`none` bound = empty string = unbounded). -/
abbrev PInterval := Option PF × Option PF

/-- Parse one bound string: empty means `None`, otherwise `float(s)`
(whose failure is a `ValueError`, modelled as the outer `none`). -/
def parseBound (s : List Char) : Option (Option PF) :=
  if s = [] then some none
  else
    match pyFloat s with
    | none => none
    | some v => some (some v)

/-- Parse the two bound strings of a token (already split at `~` and
trimmed by the caller): a `ValueError` on either bound rejects the whole
input (`none`), two parsed bounds with `low >= high` likewise, and
otherwise the interval is accepted. -/
def parseBoundsPair (lowRaw highRaw : List Char) : Option (Option PInterval) :=
  match parseBound (trimChars lowRaw), parseBound (trimChars highRaw) with
  | some low, some high =>
    match low, high with
    | some lo, some hi =>
      if pyGe lo hi then none else some (some (low, high))
    | _, _ => some (some (low, high))
  | _, _ => none

/-- Process one comma-separated token.  Outer `none` models `return \x7b\x7d`
(hard rejection of the whole input); `some none` means the token is
silently skipped; `some (some iv)` appends `iv`. -/
def parseToken (rawPart : List Char) : Option (Option PInterval) :=
  if trimChars rawPart = [] then some none
  else if ¬ (trimChars rawPart).contains '~' then some none
  else
    match splitOnChar '~' (trimChars rawPart) with
    | [lowRaw, highRaw] => parseBoundsPair lowRaw highRaw
    | _ => some none

/-- Process the comma-separated token list of one line, collecting the
accepted intervals in order; a hard rejection aborts everything. -/
def parseIntervals : List (List Char) → Option (List PInterval)
  | [] => some []
  | p :: t =>
    match parseToken p with
    | none => none
    | some none => parseIntervals t
    | some (some iv) =>
      match parseIntervals t with
      | none => none
      | some rest => some (iv :: rest)

/-- The labels accepted by the parser. -/
def validLabel (label : String) : Bool :=
  label == "PASS" || label == "W74A" || label == "W748"

/-- Process one line: split at the first `:`, keep only valid labels, and
parse the interval list; lines producing no intervals are skipped. -/
def parseLine (rawLine : List Char) : Option (Option (String × List PInterval)) :=
  if trimChars rawLine = [] then some none
  else if ¬ (trimChars rawLine).contains ':' then some none
  else if ¬ (validLabel (String.mk (trimChars
      ((splitOnChar ':' (trimChars rawLine)).headD []))) = true) then some none
  else
    match parseIntervals (splitOnChar ','
        (joinWithChar ':' ((splitOnChar ':' (trimChars rawLine)).drop 1))) with
    | none => none
    | some [] => some none
    | some ivs =>
      some (some (String.mk (trimChars ((splitOnChar ':' (trimChars rawLine)).headD [])), ivs))

/-- Python dict assignment `result[label] = intervals`: replace in place
when the key exists (keeping its position), else append. -/
def dictInsert (d : List (String × List PInterval)) (k : String)
    (v : List PInterval) : List (String × List PInterval) :=
  match d with
  | [] => [(k, v)]
  | (k', v') :: t => if k' = k then (k, v) :: t else (k', v') :: dictInsert t k v

/-- The line loop of `parse_user_interval_syntax`. -/
def foldLines (d : List (String × List PInterval)) :
    List (List Char) → Option (List (String × List PInterval))
  | [] => some d
  | l :: t =>
    match parseLine l with
    | none => none
    | some none => foldLines d t
    | some (some (label, ivs)) => foldLines (dictInsert d label ivs) t

/-- `parse_user_interval_syntax(text)`: the resulting label → intervals
mapping, `[]` both for an input with nothing parseable and for a hard
rejection. -/
def parse_user_interval_syntax (text : String) : List (String × List PInterval) :=
  match foldLines [] (splitOnChar '\n' (trimChars text.data)) with
  | none => []
  | some d => d

/-! Claim-side predicates for the parser: a token with a bound that fails
`float` parsing, or whose two parsed bounds satisfy `low >= high`. -/

/-- Both token bounds are present, parse, and compare `low >= high`. -/
def boundsGe (lowStr highStr : List Char) : Bool :=
  match (if lowStr = [] then none else pyFloat lowStr),
        (if highStr = [] then none else pyFloat highStr) with
  | some lo, some hi => pyGe lo hi
  | _, _ => false

/-- A token (nonempty, containing `~`, splitting into exactly two bound
strings) that triggers the parser's hard rejection: a nonempty bound that
does not parse as a float, or two parsed bounds with `low >= high`. -/
def tokenRejects (rawPart : List Char) : Bool :=
  if trimChars rawPart = [] then false
  else if ¬ (trimChars rawPart).contains '~' then false
  else
    match splitOnChar '~' (trimChars rawPart) with
    | [lowRaw, highRaw] =>
      (!(trimChars lowRaw).isEmpty && (pyFloat (trimChars lowRaw)).isNone) ||
      (!(trimChars highRaw).isEmpty && (pyFloat (trimChars highRaw)).isNone) ||
      boundsGe (trimChars lowRaw) (trimChars highRaw)
    | _ => false

/-- A line whose label is valid and whose interval string holds a
rejecting token. -/
def lineRejects (rawLine : List Char) : Bool :=
  if trimChars rawLine = [] then false
  else if ¬ (trimChars rawLine).contains ':' then false
  else if ¬ (validLabel (String.mk (trimChars
      ((splitOnChar ':' (trimChars rawLine)).headD []))) = true) then false
  else
    (splitOnChar ','
      (joinWithChar ':' ((splitOnChar ':' (trimChars rawLine)).drop 1))).any tokenRejects

/-- Some line of the input holds a rejecting token. -/
def textRejects (text : String) : Bool :=
  (splitOnChar '\n' (trimChars text.data)).any lineRejects

/-! ## Station job registry (`run_from_panel`) -/

/-- The data of a `PanelJob` binding a run to a panel (thread handle and
stop event elided; the token identifies the run's sample series). -/
structure PanelJob where
  panel_index : ℕ
  series_token : String
deriving DecidableEq, Repr

/-- `is_valid_imei`: `imei.isdigit()` (nonempty, all digits), length 15,
and starting with the single character `"3"`. -/
def is_valid_imei (imei : String) : Bool :=
  (!imei.data.isEmpty && imei.data.all Char.isDigit) && imei.data.length == 15 &&
    (match imei.data with
     | c :: _ => c == '3'
     | [] => false)

/-- Result of a `run_from_panel` request: the updated job slots, whether a
worker thread was started, and the warning dialog text when rejected. -/
structure RunFromPanelRes where
  jobs : List (Option PanelJob)
  started : Bool
  warning : Option String
deriving Repr

/-- `run_from_panel`'s guard-and-register sequence: input validation,
model lookup, the busy check on this panel's job slot, and — only when
the slot is empty — spawning the worker and binding the new job.
UI-widget updates and the sticky per-panel last-model/IMEI bookkeeping
are elided; `job` is the `PanelJob` value built for this run. -/
def run_from_panel (activeJobs : List (Option PanelJob)) (panelIndex : ℕ)
    (imei model : String) (modelVoltageMap : List (String × ℚ))
    (supplyName : String) (job : PanelJob) : RunFromPanelRes :=
  if ¬ (is_valid_imei imei = true) ∨ model = "" then
    { jobs := activeJobs, started := false
      warning := some "Please enter correct IMEI and Model." }
  else if (modelVoltageMap.lookup model).isNone then
    { jobs := activeJobs, started := false
      warning := some ("Unknown model: " ++ model) }
  else if ((activeJobs.getD panelIndex none).isSome) then
    { jobs := activeJobs, started := false
      warning := some (supplyName ++ " is already running. Please wait.") }
  else
    { jobs := activeJobs.set panelIndex (some job), started := true
      warning := none }

/-! ## Sub-PBA terminal handling (`poll_queue_inline`, `sub_pba_fail` arm) -/

/-- What the `sub_pba_fail` arm of `poll_queue_inline` produces: the
summary row, row tag, retained series, detail log rows and status-label
texts. -/
structure SubPbaRes where
  row : String × String × String × String × String × String × String
  tag : String
  storedSamples : List ℕ
  storedCurrents : List ℚ
  detailRows : List (String × String × String × String × String × ℕ × ℚ)
  progressText : String
  statusText : String
  statusColor : String
deriving Repr

/-- The `sub_pba_fail` arm: verdict `PASS(Sub PBA issue)` displayed green,
average shown as `0.000A`, retained series defaulting to a single
synthetic sample, and exactly one synthetic detail row logged. -/
def handle_sub_pba_fail (imei model username supplyUsed dateVal : String)
    (samples : List ℕ) (currents : List ℚ) : SubPbaRes :=
  let pf_status := "PASS(Sub PBA issue)"
  let avg_current_str := "0.000A"
  { row := (imei, model, avg_current_str, pf_status, username, supplyUsed, dateVal)
    tag := "green_row"
    storedSamples := if samples.isEmpty then [0] else samples
    storedCurrents := if currents.isEmpty then [0] else currents
    detailRows := [(imei, model, username, supplyUsed, dateVal, 0, 0)]
    progressText := "Done: PASS(Sub PBA issue)"
    statusText := pf_status
    statusColor := "green" }

/-! ## Measurement worker model

`measure_current_and_get_avg_with_progress` and its two runners are
modelled as pure functions from oracle environments to the ordered list
of events they put on the progress queue, the instrument actions they
perform, and the samples they push into the series store.  Oracles:
`stop k` is the value read by the `k`-th `stop_event.is_set()` call,
`query q` the result of the `q`-th `MEAS:CURR?` (an `Except` models a
raised instrument error), `now t` the `t`-th `time.time()` reading, and
`answer m` whether the `m`-th 0.1 s-timeout `get` on the prompt-response
queue returns an answer.  Unbounded `while` loops take fuel. -/

/-- A progress-queue event. -/
inductive Ev where
  | status (text : String)
  | phase (name : String)
  | tick (i total : ℕ) (value : ℚ)
  | promptDeviceCheck (supply question : String)
  | configError (text : String)
  | done (last5Avg totalAvg : ℚ) (supply : String) (token : Option String)
  | subPbaFail (supply : String) (token : Option String)
  | error (text : String)
deriving DecidableEq, Repr

/-- The four terminal event kinds. -/
def Ev.isTerminal : Ev → Bool
  | .configError _ => true
  | .done _ _ _ _ => true
  | .subPbaFail _ _ => true
  | .error _ => true
  | _ => false

/-- An instrument interaction. -/
inductive Act where
  | openResource (addr : String)
  | outpOn
  | setVolt (v : ℚ)
  | queryCurr
  | outpOff
  | closeInst
deriving DecidableEq, Repr

/-- The message of the exception raised by `_raise_if_cancelled`. -/
def cancelMsg : String := "Measurement cancelled by user."

/-- `f"No current detected for {NO_CURRENT_SECONDS} seconds."` with
`NO_CURRENT_SECONDS = 15`. -/
def noCurrentMsg : String := "No current detected for 15 seconds."

/-- The operator-confirmation question text. -/
def promptQuestion : String :=
  "No current detected for 15 seconds. Is a device connected to the power supply?"

/-- `_wait_for_prompt_answer`: loop checking cancellation then polling the
response queue with a 0.1 s timeout.  Counters: `k` indexes cancellation
reads, `m` indexes queue polls.  Returns the answer or the raised
cancellation message together with the advanced counters; `none` when the
fuel runs out (neither an answer nor cancellation arrived within the
modelled horizon). -/
def wait_for_prompt_answer (stop : ℕ → Bool) (answer : ℕ → Option Bool) :
    ℕ → ℕ → ℕ → Option (Except String Bool × ℕ × ℕ)
  | 0, _, _ => none
  | fuel + 1, k, m =>
    if stop k then some (.error cancelMsg, k + 1, m)
    else
      match answer m with
      | some b => some (.ok b, k + 1, m + 1)
      | none => wait_for_prompt_answer stop answer fuel (k + 1) (m + 1)

/-- Oracle environment of `_run_real_measurement`. -/
structure REnv where
  openFails : Option String
  outpOnFails : Option String
  setVoltFails : Option String
  query : ℕ → Except String ℚ
  stop : ℕ → Bool
  now : ℕ → ℚ
  answer : ℕ → Option Bool
  hasPromptQueue : Bool

/-- Exit mode of the device-waiting loop. -/
inductive WaitOut where
  | proceed
  | returned
  | raised (msg : String)
deriving DecidableEq, Repr

/-- Result of the device-waiting loop: events emitted inside it, advanced
counters, and how it exited. -/
structure WaitRes where
  evs : List Ev
  k : ℕ
  q : ℕ
  t : ℕ
  m : ℕ
  out : WaitOut
deriving Repr

/-- The `while True` device-waiting loop of `_run_real_measurement`:
check cancellation, query current, exit on presence (> 0.005 A), track
the start of a no-current span via `time.time()`, and on a 15 s timeout
either fail hard (no prompt queue) or prompt the operator: "yes" takes
the sub-PBA return, "no" restarts the span. -/
def realWaitLoop (env : REnv) (supplyName : String) (token : Option String)
    (afuel : ℕ) :
    ℕ → ℕ → ℕ → ℕ → ℕ → Option ℚ → Option WaitRes
  | 0, _, _, _, _, _ => none
  | fuel + 1, k, q, t, m, zcs =>
    if env.stop k then some ⟨[], k + 1, q, t, m, .raised cancelMsg⟩
    else
      match env.query q with
      | .error e => some ⟨[], k + 1, q + 1, t, m, .raised e⟩
      | .ok current =>
        if mkRat 1 200 < current then some ⟨[], k + 1, q + 1, t, m, .proceed⟩
        else
          match zcs with
          | none =>
            realWaitLoop env supplyName token afuel fuel
              (k + 1) (q + 1) (t + 1) m (some (env.now t))
          | some z =>
            if 15 ≤ env.now t - z then
              if ¬ env.hasPromptQueue then
                some ⟨[.error "Unable to confirm device connection. Please retry."],
                      k + 1, q + 1, t + 1, m, .returned⟩
              else
                let evs0 : List Ev :=
                  [.status noCurrentMsg, .promptDeviceCheck supplyName promptQuestion]
                match wait_for_prompt_answer env.stop env.answer afuel (k + 1) m with
                | none => none
                | some (.error msg, k', m') =>
                  some ⟨evs0, k', q + 1, t + 1, m', .raised msg⟩
                | some (.ok true, k', m') =>
                  some ⟨evs0 ++ [.subPbaFail supplyName token], k', q + 1, t + 1, m',
                        .returned⟩
                | some (.ok false, k', m') =>
                  match realWaitLoop env supplyName token afuel fuel
                      k' (q + 1) (t + 2) m' (some (env.now (t + 1))) with
                  | none => none
                  | some r => some { r with evs := evs0 ++ r.evs }
            else
              realWaitLoop env supplyName token afuel fuel
                (k + 1) (q + 1) (t + 1) m (some z)

/-- Result of a sampling loop: events, pushed samples, collected values,
advanced counters, and the message of a raised exception if any. -/
structure MeasRes where
  evs : List Ev
  pushed : List (ℕ × ℚ)
  vals : List ℚ
  k : ℕ
  q : ℕ
  raised : Option String
deriving Repr

/-- The 30-sample measuring loop of `_run_real_measurement`: per sample a
cancellation check, a current query, a pushed sample and a `tick`. -/
def realMeasLoop (env : REnv) (total : ℕ) :
    ℕ → ℕ → ℕ → ℕ → MeasRes
  | 0, _, k, q => ⟨[], [], [], k, q, none⟩
  | n + 1, i, k, q =>
    if env.stop k then ⟨[], [], [], k + 1, q, some cancelMsg⟩
    else
      match env.query q with
      | .error e => ⟨[], [], [], k + 1, q + 1, some e⟩
      | .ok c =>
        let r := realMeasLoop env total n (i + 1) (k + 1) (q + 1)
        ⟨.tick (i + 1) total c :: r.evs, (i + 1, c) :: r.pushed, c :: r.vals,
         r.k, r.q, r.raised⟩

/-- `sum(vals[-5:]) / 5 if len(vals) >= 5 else sum(vals) / len(vals)`. -/
def pyAvgLast5 (vals : List ℚ) : ℚ :=
  if 5 ≤ vals.length then (vals.drop (vals.length - 5)).sum / 5
  else vals.sum / vals.length

/-- `sum(vals) / len(vals)`. -/
def pyAvgTotal (vals : List ℚ) : ℚ :=
  vals.sum / vals.length

/-- What a completed (or config-rejected) worker run leaves behind: the
progress-queue events in emission order, the instrument actions in order,
and the samples pushed into the series store. -/
structure RunRes where
  evs : List Ev
  acts : List Act
  pushed : List (ℕ × ℚ)
deriving DecidableEq, Repr

/-- `_run_real_measurement`: connect and power on, wait for device
current, take 30 samples, emit `done`; any exception (including the
cancellation exception) is caught at the boundary and put as one `error`
event; the `finally` block commands the output off whenever the
instrument was opened. -/
def run_real_measurement (env : REnv) (modelVoltage : ℚ)
    (supplyName supplyAddr : String) (token : Option String)
    (wfuel afuel : ℕ) : Option RunRes :=
  let ev0 : List Ev :=
    [.status ("Connecting to " ++ supplyName ++ " at " ++ supplyAddr ++ "...")]
  match env.openFails with
  | some e => some ⟨ev0 ++ [.error e], [.openResource supplyAddr], []⟩
  | none =>
    match env.outpOnFails with
    | some e =>
      some ⟨ev0 ++ [.error e],
            [.openResource supplyAddr, .outpOn, .outpOff, .closeInst], []⟩
    | none =>
      match env.setVoltFails with
      | some e =>
        some ⟨ev0 ++ [.error e],
              [.openResource supplyAddr, .outpOn, .setVolt modelVoltage,
               .outpOff, .closeInst], []⟩
      | none =>
        let acts0 : List Act :=
          [.openResource supplyAddr, .outpOn, .setVolt modelVoltage]
        let ev1 := ev0 ++ [.phase "waiting", .status "Plug Anyway Jig into the phone."]
        match realWaitLoop env supplyName token afuel wfuel 0 0 0 0 none with
        | none => none
        | some w =>
          let actsW := acts0 ++ List.replicate w.q .queryCurr ++ [.outpOff, .closeInst]
          match w.out with
          | .raised msg => some ⟨ev1 ++ w.evs ++ [.error msg], actsW, []⟩
          | .returned => some ⟨ev1 ++ w.evs, actsW, []⟩
          | .proceed =>
            let ev2 := ev1 ++ w.evs ++ [.phase "measuring", .status "Measuring current"]
            let r := realMeasLoop env 30 30 0 w.k w.q
            let actsAll := acts0 ++ List.replicate r.q .queryCurr ++ [.outpOff, .closeInst]
            match r.raised with
            | some msg => some ⟨ev2 ++ r.evs ++ [.error msg], actsAll, r.pushed⟩
            | none =>
              some ⟨ev2 ++ r.evs ++
                    [.done (pyAvgLast5 r.vals) (pyAvgTotal r.vals) supplyName token],
                    actsAll, r.pushed⟩

/-- Oracle environment of `_run_pseudo_measurement`. -/
structure PEnv where
  stop : ℕ → Bool
  currents : ℕ → ℚ
  rand0 : ℚ
  answer : ℕ → Option Bool
  hasPromptQueue : Bool

/-- Run `n` consecutive `_raise_if_cancelled` checks starting at read
index `k`; returns the advanced index and whether one of them raised. -/
def runChecks (stop : ℕ → Bool) : ℕ → ℕ → ℕ × Bool
  | 0, k => (k, false)
  | n + 1, k => if stop k then (k + 1, true) else runChecks stop n (k + 1)

/-- The 30-sample simulation loop of `_run_pseudo_measurement`: per sample
a cancellation check, a simulated current, a pushed sample, a `tick`, and
five further cancellation checks between the sub-delays. -/
def pseudoMeasLoop (env : PEnv) (total : ℕ) :
    ℕ → ℕ → ℕ → MeasRes
  | 0, _, k => ⟨[], [], [], k, 0, none⟩
  | n + 1, i, k =>
    if env.stop k then ⟨[], [], [], k + 1, 0, some cancelMsg⟩
    else
      let c := env.currents i
      let inner := runChecks env.stop 5 (k + 1)
      if inner.2 then
        ⟨[.tick (i + 1) total c], [(i + 1, c)], [c], inner.1, 0, some cancelMsg⟩
      else
        let r := pseudoMeasLoop env total n (i + 1) inner.1
        ⟨.tick (i + 1) total c :: r.evs, (i + 1, c) :: r.pushed, c :: r.vals,
         r.k, r.q, r.raised⟩

/-- The simulation tail shared by both branches of
`_run_pseudo_measurement`: the connection-simulation delay (five checked
sleeps), then the measuring phase. -/
def pseudoRest (env : PEnv) (supplyName : String) (token : Option String)
    (evs0 : List Ev) (k : ℕ) : Option RunRes :=
  let evs1 := evs0 ++ [.status "Simulating device connection..."]
  let conn := runChecks env.stop 5 k
  if conn.2 then some ⟨evs1 ++ [.error cancelMsg], [], []⟩
  else
    let evs2 := evs1 ++ [.phase "measuring", .status "Simulating current measurements"]
    let r := pseudoMeasLoop env 30 30 0 conn.1
    match r.raised with
    | some msg => some ⟨evs2 ++ r.evs ++ [.error msg], [], r.pushed⟩
    | none =>
      some ⟨evs2 ++ r.evs ++
            [.done (pyAvgLast5 r.vals) (pyAvgTotal r.vals) supplyName token],
            [], r.pushed⟩

/-- `_run_pseudo_measurement`: with probability `prob` (the clamped
`PSEUDO_SUB_PBA_FAIL_PROB`) first simulate the no-current prompt — "yes"
takes the sub-PBA return, "no" falls through to the simulation — then
simulate the connection delay and the 30 samples.  Exceptions are caught
at the boundary and put as one `error` event. -/
def run_pseudo_measurement (env : PEnv) (probRaw : ℚ) (supplyName : String)
    (token : Option String) (afuel : ℕ) : Option RunRes :=
  let ev0 : List Ev :=
    [.status ("Using pseudo mode (supply " ++ supplyName ++ ")"), .phase "waiting"]
  let prob := max 0 (min 1 probRaw)
  if env.rand0 < prob then
    if ¬ env.hasPromptQueue then
      some ⟨ev0 ++ [.error "Unable to confirm device connection. Please retry."], [], []⟩
    else
      let ev1 := ev0 ++ [.status noCurrentMsg, .promptDeviceCheck supplyName promptQuestion]
      match wait_for_prompt_answer env.stop env.answer afuel 0 0 with
      | none => none
      | some (.error msg, _, _) => some ⟨ev1 ++ [.error msg], [], []⟩
      | some (.ok true, _, _) => some ⟨ev1 ++ [.subPbaFail supplyName token], [], []⟩
      | some (.ok false, k', _) => pseudoRest env supplyName token ev1 k'
  else pseudoRest env supplyName token ev0 0

/-- `measure_current_and_get_avg_with_progress`: validate the model's
criteria (overlap check first, then presence of a nonempty `PASS` entry)
and stop with a `config_error` event before any instrument interaction on
failure; otherwise dispatch to the pseudo or real runner. -/
def measure_current_and_get_avg_with_progress
    (modelCriteria : List (String × Criteria)) (model : String)
    (usePseudo : Bool) (probRaw modelVoltage : ℚ)
    (supplyName supplyAddr : String) (token : Option String)
    (penv : PEnv) (renv : REnv) (wfuel afuel : ℕ) : Option RunRes :=
  let criteria := criteriaOf modelCriteria model
  match check_interval_overlaps criteria with
  | some overlapError =>
    some ⟨[.configError ("Model configuration error: " ++ overlapError)], [], []⟩
  | none =>
    if (match criteria.lookup "PASS" with
        | none => true
        | some l => l.isEmpty) then
      some ⟨[.configError ("Model configuration error: No PASS interval defined for model '"
              ++ model ++ "'")], [], []⟩
    else if usePseudo then run_pseudo_measurement penv probRaw supplyName token afuel
    else run_real_measurement renv modelVoltage supplyName supplyAddr token wfuel afuel

/-! ## Spec-side predicates for the temporal claims -/

/-- The event list ends with exactly one terminal event: everything before
the last event is non-terminal and the last event is terminal. -/
def TerminalLast (evs : List Ev) : Prop :=
  ∃ pre t, evs = pre ++ [t] ∧ t.isTerminal = true ∧ ∀ e ∈ pre, e.isTerminal = false

/-- Invariant of the device-waiting loop's event output: a `returned` exit
has already emitted its single trailing terminal event; any other exit has
emitted only non-terminal events (the terminal is appended by the caller). -/
def WaitEvsOk (w : WaitRes) : Prop :=
  match w.out with
  | .returned => TerminalLast w.evs
  | _ => ∀ e ∈ w.evs, e.isTerminal = false

/-- Invariant of each mapping entry produced by the parser: a valid label
and no pair of present bounds with `low >= high`. -/
def GoodEntry (e : String × List PInterval) : Prop :=
  validLabel e.1 = true ∧ ∀ lo hi, (some lo, some hi) ∈ e.2 → pyGe lo hi = false

/-! # Theorems -/

/-! ## Overlap validator (C1) -/

theorem XR.lt_irrefl (a : XR) : XR.lt a a = false := by
  cases a <;> simp [XR.lt]

theorem overlapCondB_symm (a b : NInterval) : overlapCondB a b = overlapCondB b a := by
  simp [overlapCondB, Bool.and_comm]

theorem any_congr_perm {α : Type} {l l' : List α} (h : l.Perm l') (f : α → Bool) :
    l.any f = l'.any f := by
  induction h with
  | nil => rfl
  | cons x _ ih => simp [List.any_cons, ih]
  | swap x y l =>
    simp only [List.any_cons]
    cases f x <;> cases f y <;> simp
  | trans _ _ ih1 ih2 => rw [ih1, ih2]

theorem existsPairB_congr_perm {P : NInterval → NInterval → Bool}
    (hsym : ∀ a b, P a b = P b a) {l l' : List NInterval} (h : l.Perm l') :
    existsPairB P l = existsPairB P l' := by
  induction h with
  | nil => rfl
  | cons x h ih => simp [existsPairB, any_congr_perm h, ih]
  | swap x y l =>
    simp only [existsPairB, List.any_cons]
    rw [hsym y x]
    cases P x y <;> cases l.any (P x) <;> cases l.any (P y) <;>
      cases existsPairB P l <;> rfl
  | trans _ _ ih1 ih2 => rw [ih1, ih2]

theorem insertByLow_perm (x : NInterval) (l : List NInterval) :
    (insertByLow x l).Perm (x :: l) := by
  induction l with
  | nil => simp [insertByLow]
  | cons y t ih =>
    simp only [insertByLow]
    split
    · exact List.Perm.refl _
    · exact (ih.cons y).trans (List.Perm.swap x y t)

theorem sortByLow_perm (l : List NInterval) : (sortByLow l).Perm l := by
  induction l with
  | nil => simp [sortByLow]
  | cons x t ih => exact (insertByLow_perm x (sortByLow t)).trans (ih.cons x)

theorem overlapCondB_ne_high_low {a b : NInterval} (h : overlapCondB a b = true) :
    a.high ≠ b.low := by
  intro he
  unfold overlapCondB at h
  rw [Bool.and_eq_true] at h
  have h2 := h.2
  rw [← he] at h2
  rw [XR.lt_irrefl] at h2
  exact Bool.false_ne_true h2

theorem checkAgainst_none_iff {x : NInterval} {t : List NInterval}
    (hopen : ∀ y ∈ t, y.lowType = "open") :
    checkAgainst x t = none ↔ ∀ y ∈ t, overlapCondB x y = false := by
  induction t with
  | nil => simp [checkAgainst]
  | cons y t ih =>
    have hy : y.lowType = "open" := hopen y (List.mem_cons_self y t)
    have ht : ∀ z ∈ t, z.lowType = "open" := fun z hz => hopen z (List.mem_cons_of_mem y hz)
    simp only [checkAgainst]
    by_cases he : x.high = y.low
    · rw [if_pos he]
      have hnotclosed : ¬ (x.highType = "closed" ∧ y.lowType = "closed") := by
        rintro ⟨_, hc⟩
        rw [hy] at hc
        exact absurd hc (by decide)
      rw [if_neg hnotclosed, ih ht]
      constructor
      · intro hall z hz
        rcases List.mem_cons.mp hz with rfl | hz'
        · cases hc : overlapCondB x z with
          | false => rfl
          | true => exact absurd he (overlapCondB_ne_high_low hc)
        · exact hall z hz'
      · intro hall z hz
        exact hall z (List.mem_cons_of_mem y hz)
    · rw [if_neg he]
      by_cases hc : XR.lt x.low y.high = true ∧ XR.lt y.low x.high = true
      · rw [if_pos hc]
        constructor
        · intro hnone
          exact absurd hnone (by simp)
        · intro hall
          have hfalse := hall y (List.mem_cons_self y t)
          unfold overlapCondB at hfalse
          rw [hc.1, hc.2] at hfalse
          exact absurd hfalse (by decide)
      · rw [if_neg hc, ih ht]
        constructor
        · intro hall z hz
          rcases List.mem_cons.mp hz with rfl | hz'
          · cases hcc : overlapCondB x z with
            | false => rfl
            | true =>
              unfold overlapCondB at hcc
              rw [Bool.and_eq_true] at hcc
              exact absurd hcc hc
          · exact hall z hz'
        · intro hall z hz
          exact hall z (List.mem_cons_of_mem y hz)

theorem checkAgainst_some {x : NInterval} {t : List NInterval} {msg : String}
    (hopen : ∀ y ∈ t, y.lowType = "open")
    (h : checkAgainst x t = some msg) :
    ∃ y ∈ t, overlapCondB x y = true ∧ msg = overlapMsg x.label y.label := by
  induction t with
  | nil => simp [checkAgainst] at h
  | cons y t ih =>
    have hy : y.lowType = "open" := hopen y (List.mem_cons_self y t)
    have ht : ∀ z ∈ t, z.lowType = "open" := fun z hz => hopen z (List.mem_cons_of_mem y hz)
    simp only [checkAgainst] at h
    by_cases he : x.high = y.low
    · rw [if_pos he] at h
      have hnotclosed : ¬ (x.highType = "closed" ∧ y.lowType = "closed") := by
        rintro ⟨_, hc⟩
        rw [hy] at hc
        exact absurd hc (by decide)
      rw [if_neg hnotclosed] at h
      obtain ⟨z, hz, hcond, rfl⟩ := ih ht h
      exact ⟨z, List.mem_cons_of_mem y hz, hcond, rfl⟩
    · rw [if_neg he] at h
      by_cases hc : XR.lt x.low y.high = true ∧ XR.lt y.low x.high = true
      · rw [if_pos hc] at h
        refine ⟨y, List.mem_cons_self y t, ?_, ?_⟩
        · unfold overlapCondB
          rw [Bool.and_eq_true]
          exact hc
        · exact (Option.some.injEq _ _ ▸ h).symm
      · rw [if_neg hc] at h
        obtain ⟨z, hz, hcond, rfl⟩ := ih ht h
        exact ⟨z, List.mem_cons_of_mem y hz, hcond, rfl⟩

theorem checkPairs_none_iff {l : List NInterval}
    (hopen : ∀ y ∈ l, y.lowType = "open") :
    checkPairs l = none ↔ existsPairB overlapCondB l = false := by
  induction l with
  | nil => simp [checkPairs, existsPairB]
  | cons x t ih =>
    have ht : ∀ z ∈ t, z.lowType = "open" := fun z hz => hopen z (List.mem_cons_of_mem x hz)
    simp only [checkPairs, existsPairB]
    cases hca : checkAgainst x t with
    | some m =>
      obtain ⟨y, hy, hcond, _⟩ := checkAgainst_some ht hca
      have hany : t.any (overlapCondB x) = true :=
        List.any_eq_true.mpr ⟨y, hy, hcond⟩
      simp [hany]
    | none =>
      have hall : ∀ y ∈ t, overlapCondB x y = false := (checkAgainst_none_iff ht).mp hca
      have hany : t.any (overlapCondB x) = false :=
        List.any_eq_false.mpr (by intro y hy; simp [hall y hy])
      simp [hany, ih ht]

theorem checkPairs_some {l : List NInterval} {msg : String}
    (hopen : ∀ y ∈ l, y.lowType = "open")
    (h : checkPairs l = some msg) :
    ∃ a b, a ∈ l ∧ b ∈ l ∧ overlapCondB a b = true ∧
      msg = overlapMsg a.label b.label := by
  induction l with
  | nil => simp [checkPairs] at h
  | cons x t ih =>
    have ht : ∀ z ∈ t, z.lowType = "open" := fun z hz => hopen z (List.mem_cons_of_mem x hz)
    simp only [checkPairs] at h
    cases hca : checkAgainst x t with
    | some m =>
      rw [hca] at h
      obtain ⟨y, hy, hcond, hmsg⟩ := checkAgainst_some ht hca
      simp only [Option.some.injEq] at h
      exact ⟨x, y, List.mem_cons_self x t, List.mem_cons_of_mem x hy, hcond,
        h ▸ hmsg⟩
    | none =>
      rw [hca] at h
      obtain ⟨a, b, ha, hb, hcond, hmsg⟩ := ih ht h
      exact ⟨a, b, List.mem_cons_of_mem x ha, List.mem_cons_of_mem x hb, hcond, hmsg⟩

theorem normalize_lowType (criteria : Criteria) :
    ∀ x ∈ normalizeIntervals criteria, x.lowType = "open" := by
  intro x hx
  unfold normalizeIntervals at hx
  simp only [List.mem_flatten, List.mem_map] at hx
  obtain ⟨s, ⟨entry, _, rfl⟩, hxs⟩ := hx
  simp only [List.mem_map] at hxs
  obtain ⟨iv, _, rfl⟩ := hxs
  rfl

/-- C1: the overlap validator reports an overlap exactly when two of the
(normalized) intervals satisfy `low1 < high2 and low2 < high1`, regardless
of label; the reported message names such an offending label pair; and
adjacent half-open intervals `(0,1]` and `(1,2]` — under the same or
different labels — are not flagged. -/
theorem c1_overlap_validator :
    (∀ criteria : Criteria,
      (check_interval_overlaps criteria = none ↔ ¬ hasOverlappingPair criteria) ∧
      ∀ msg, check_interval_overlaps criteria = some msg →
        ∃ a b, a ∈ normalizeIntervals criteria ∧ b ∈ normalizeIntervals criteria ∧
          overlapCondB a b = true ∧ msg = overlapMsg a.label b.label) ∧
    check_interval_overlaps [("PASS", [(some 0, some 1)]), ("W74A", [(some 1, some 2)])] = none ∧
    check_interval_overlaps [("PASS", [(some 0, some 1), (some 1, some 2)])] = none := by
  refine ⟨fun criteria => ⟨?_, ?_⟩, by decide, by decide⟩
  · unfold check_interval_overlaps hasOverlappingPair
    have hopen : ∀ y ∈ sortByLow (normalizeIntervals criteria), y.lowType = "open" :=
      fun y hy => normalize_lowType criteria y ((sortByLow_perm _).mem_iff.mp hy)
    rw [checkPairs_none_iff hopen,
      existsPairB_congr_perm overlapCondB_symm (sortByLow_perm (normalizeIntervals criteria))]
    simp
  · intro msg h
    unfold check_interval_overlaps at h
    have hopen : ∀ y ∈ sortByLow (normalizeIntervals criteria), y.lowType = "open" :=
      fun y hy => normalize_lowType criteria y ((sortByLow_perm _).mem_iff.mp hy)
    obtain ⟨a, b, ha, hb, hcond, hmsg⟩ := checkPairs_some hopen h
    exact ⟨a, b, (sortByLow_perm _).mem_iff.mp ha, (sortByLow_perm _).mem_iff.mp hb,
      hcond, hmsg⟩

theorem c1_overlap_validator_witness :
    check_interval_overlaps [("PASS", [(some 0, some 2)]), ("W74A", [(some 1, some 3)])] ≠
      none := by
  intro h
  exact ((c1_overlap_validator.1 _).1.mp h) (by decide)

/-! ## Classifier (C2, C3, C8) -/

theorem lt_listMax_iff (b a : ℚ) (l : List ℚ) :
    b < listMax a l ↔ b < a ∨ ∃ x ∈ l, b < x := by
  induction l generalizing a with
  | nil => simp [listMax]
  | cons c t ih =>
    simp only [listMax]
    rw [ih]
    simp only [lt_max_iff, List.mem_cons]
    constructor
    · rintro (⟨h | h⟩ | ⟨x, hx, hbx⟩)
      · exact Or.inl h
      · exact Or.inr ⟨c, Or.inl rfl, h⟩
      · exact Or.inr ⟨x, Or.inr hx, hbx⟩
    · rintro (h | ⟨x, rfl | hx, hbx⟩)
      · exact Or.inl (Or.inl h)
      · exact Or.inl (Or.inr hbx)
      · exact Or.inr ⟨x, hx, hbx⟩

theorem ceilingHitB_iff (samples : List ℚ) :
    ceilingHitB samples = true ↔ ceilingCond samples := by
  unfold ceilingHitB ceilingCond
  by_cases h5 : 5 < samples.length
  · rw [if_pos h5]
    cases hd : samples.drop 5 with
    | nil =>
      exfalso
      have := List.length_drop 5 samples
      rw [hd] at this
      simp at this
      omega
    | cons s rest =>
      rw [decide_eq_true_eq, lt_listMax_iff]
      constructor
      · rintro (h | ⟨x, hx, hbx⟩)
        · exact ⟨h5, s, List.mem_cons_self s rest, h⟩
        · exact ⟨h5, x, List.mem_cons_of_mem s hx, hbx⟩
      · rintro ⟨_, x, hx, hbx⟩
        rcases List.mem_cons.mp hx with rfl | hx'
        · exact Or.inl hbx
        · exact Or.inr ⟨x, hx', hbx⟩
  · rw [if_neg h5]
    simp [h5]

theorem floorAnyB_iff (samples : List ℚ) :
    floorAnyB samples = true ↔ floorCond samples := by
  unfold floorAnyB floorCond
  rw [List.any_eq_true]
  simp only [decide_eq_true_eq]
  constructor
  · rintro ⟨x, hx, hbx⟩
    refine ⟨?_, x, hx, hbx⟩
    by_contra hlen
    have hnil : samples.drop 2 = [] := by
      apply List.drop_eq_nil_of_le
      omega
    rw [hnil] at hx
    exact absurd hx (List.not_mem_nil x)
  · rintro ⟨_, x, hx, hbx⟩
    exact ⟨x, hx, hbx⟩

theorem is_current_in_interval_iff (c : ℚ) (iv : Interval) :
    is_current_in_interval c iv = true ↔ memSpec c iv := by
  rcases iv with ⟨l, h⟩
  cases l <;> cases h <;>
    simp [is_current_in_interval, memSpec, not_le, not_lt]

theorem labelMatches_any_iff (criteria : Criteria) (label : String) (current : ℚ) :
    (critGet criteria label).any (fun iv => is_current_in_interval current iv) = true ↔
      labelMatches criteria label current := by
  rw [List.any_eq_true]
  unfold labelMatches
  constructor
  · rintro ⟨iv, hiv, hmem⟩
    exact ⟨iv, hiv, (is_current_in_interval_iff current iv).mp hmem⟩
  · rintro ⟨iv, hiv, hmem⟩
    exact ⟨iv, hiv, (is_current_in_interval_iff current iv).mpr hmem⟩

theorem get_pf_status_no_override (MC : List (String × Criteria)) (model : String)
    (avg : ℚ) (samples : List ℚ) (rand : ℚ)
    (h1 : ¬ ceilingCond samples) (h2 : ¬ floorCond samples) :
    get_pf_status MC model avg samples rand =
      (let criteria := criteriaOf MC model
       if (critGet criteria "PASS").any (fun iv => is_current_in_interval avg iv) then "PASS"
       else if (critGet criteria "W74A").any (fun iv => is_current_in_interval avg iv) then
         "FAIL(W74A)"
       else if (critGet criteria "W748").any (fun iv => is_current_in_interval avg iv) then
         "FAIL(W748)"
       else if rand < mkRat 85 100 then "FAIL(W74A)"
       else "FAIL(W748)") := by
  have hceil : ceilingHitB samples = false := by
    cases hc : ceilingHitB samples with
    | false => rfl
    | true => exact absurd ((ceilingHitB_iff samples).mp hc) h1
  have hfloor : floorAnyB samples = false := by
    cases hc : floorAnyB samples with
    | false => rfl
    | true => exact absurd ((floorAnyB_iff samples).mp hc) h2
  unfold get_pf_status
  by_cases hemp : samples.isEmpty
  · rw [if_pos hemp]
  · rw [if_neg hemp, hceil]
    simp only [Bool.false_eq_true, if_false]
    by_cases h3 : 3 ≤ samples.length
    · rw [if_pos h3, hfloor]
      simp only [Bool.false_eq_true, if_false]
    · rw [if_neg h3]

theorem get_pf_status_ceiling (MC : List (String × Criteria)) (model : String)
    (avg : ℚ) (samples : List ℚ) (rand : ℚ)
    (h : ceilingCond samples) :
    get_pf_status MC model avg samples rand = "FAIL(W748)" := by
  have hne : samples.isEmpty = false := by
    cases samples with
    | nil => simp [ceilingCond] at h
    | cons a t => rfl
  unfold get_pf_status
  rw [hne, ((ceilingHitB_iff samples).mpr h)]
  simp

theorem get_pf_status_floor (MC : List (String × Criteria)) (model : String)
    (avg : ℚ) (samples : List ℚ) (rand : ℚ)
    (h1 : ¬ ceilingCond samples) (h2 : floorCond samples) :
    get_pf_status MC model avg samples rand =
      (if rand < mkRat 85 100 then "FAIL(W74A)" else "FAIL(W748)") := by
  have hne : samples.isEmpty = false := by
    cases samples with
    | nil => simp [floorCond] at h2
    | cons a t => rfl
  have hceil : ceilingHitB samples = false := by
    cases hc : ceilingHitB samples with
    | false => rfl
    | true => exact absurd ((ceilingHitB_iff samples).mp hc) h1
  unfold get_pf_status
  rw [hne, hceil, if_pos h2.1, ((floorAnyB_iff samples).mpr h2)]
  simp

/-- C2: with neither safety override firing, the classifier consults the
model's criteria in the order `PASS`, `W74A`, `W748` and returns the label
of the first list holding an interval that contains the representative
current under the half-open `(low, high]` rule (`current > low` when the
low bound is present, `current ≤ high` when the high bound is present,
missing bounds unbounded). -/
theorem c2_priority_classification (MC : List (String × Criteria)) (model : String)
    (avg : ℚ) (samples : List ℚ) (rand : ℚ)
    (h1 : ¬ ceilingCond samples) (h2 : ¬ floorCond samples) :
    (∀ (c : ℚ) (iv : Interval), is_current_in_interval c iv = true ↔ memSpec c iv) ∧
    (labelMatches (criteriaOf MC model) "PASS" avg →
      get_pf_status MC model avg samples rand = "PASS") ∧
    (¬ labelMatches (criteriaOf MC model) "PASS" avg →
      labelMatches (criteriaOf MC model) "W74A" avg →
      get_pf_status MC model avg samples rand = "FAIL(W74A)") ∧
    (¬ labelMatches (criteriaOf MC model) "PASS" avg →
      ¬ labelMatches (criteriaOf MC model) "W74A" avg →
      labelMatches (criteriaOf MC model) "W748" avg →
      get_pf_status MC model avg samples rand = "FAIL(W748)") := by
  refine ⟨is_current_in_interval_iff, ?_, ?_, ?_⟩
  · intro hp
    rw [get_pf_status_no_override MC model avg samples rand h1 h2]
    simp only
    rw [if_pos ((labelMatches_any_iff _ _ _).mpr hp)]
  · intro hnp hw
    rw [get_pf_status_no_override MC model avg samples rand h1 h2]
    simp only
    rw [if_neg (fun hc => hnp ((labelMatches_any_iff _ _ _).mp hc)),
      if_pos ((labelMatches_any_iff _ _ _).mpr hw)]
  · intro hnp hnw hw8
    rw [get_pf_status_no_override MC model avg samples rand h1 h2]
    simp only
    rw [if_neg (fun hc => hnp ((labelMatches_any_iff _ _ _).mp hc)),
      if_neg (fun hc => hnw ((labelMatches_any_iff _ _ _).mp hc)),
      if_pos ((labelMatches_any_iff _ _ _).mpr hw8)]

theorem c2_priority_classification_witness :
    get_pf_status [("M", [("PASS", [(some 0, some 2)])])] "M" 1 [1, 1, 1] 0 = "PASS" ∧
    get_pf_status [("M", [("PASS", [(some 0, some 2)]), ("W74A", [(some 2, some 3)])])]
      "M" (mkRat 5 2) [1, 1, 1] 0 = "FAIL(W74A)" := by
  constructor
  · exact (c2_priority_classification _ "M" 1 [1, 1, 1] 0 (by decide) (by decide)).2.1
      (by decide)
  · exact (c2_priority_classification _ "M" (mkRat 5 2) [1, 1, 1] 0 (by decide)
      (by decide)).2.2.1 (by decide) (by decide)

/-- C3: the safety overrides run before and independently of the
configured intervals — a post-startup sample above the 4.0 A ceiling
forces `FAIL(W748)`; otherwise a sample at 0-based index ≥ 2 below the
0.01 A floor forces the 85%/15% weighted split between `FAIL(W74A)` and
`FAIL(W748)` — for every criteria configuration and representative
current. -/
theorem c3_safety_overrides (MC : List (String × Criteria)) (model : String)
    (avg : ℚ) (samples : List ℚ) (rand : ℚ) :
    (ceilingCond samples → get_pf_status MC model avg samples rand = "FAIL(W748)") ∧
    (¬ ceilingCond samples → floorCond samples →
      get_pf_status MC model avg samples rand =
        (if rand < mkRat 85 100 then "FAIL(W74A)" else "FAIL(W748)")) := by
  exact ⟨get_pf_status_ceiling MC model avg samples rand,
    get_pf_status_floor MC model avg samples rand⟩

theorem c3_safety_overrides_witness :
    get_pf_status [("M", [("PASS", [(some 0, some 2)])])] "M" 1 [1, 1, 1, 1, 1, 1, 5] 0 =
      "FAIL(W748)" ∧
    get_pf_status [("M", [("PASS", [(some 0, some 2)])])] "M" 1
      [1, 1, 1, 1, mkRat 1 200, 1, 1] 0 = "FAIL(W74A)" := by
  constructor
  · exact (c3_safety_overrides _ "M" 1 _ 0).1 (by decide)
  · have h := (c3_safety_overrides [("M", [("PASS", [(some 0, some 2)])])] "M" 1
      [1, 1, 1, 1, mkRat 1 200, 1, 1] 0).2 (by decide) (by decide)
    rw [h]
    decide

/-- C8 counterexample: the classifier's output on identical declared
inputs (model, representative current, samples) differs between two
values of the hidden module-global `random.random()` draw, so the
classifier of the source is not a deterministic function of its inputs —
no random source can be injected through its interface. -/
theorem c8_counterexample :
    get_pf_status [] "M" 0 [0, 0, mkRat 1 200] 0 = "FAIL(W74A)" ∧
    get_pf_status [] "M" 0 [0, 0, mkRat 1 200] (mkRat 9 10) = "FAIL(W748)" := by
  decide

/-- C8 (amended): the weighted 85%/15% split — both as the low-current
override and as the no-interval-matched fallback — depends only on the
single `random.random()` draw; with that draw modelled as an explicit
argument the classifier is a deterministic function and a test fixing the
draw forces either branch (`< 0.85` gives `FAIL(W74A)`, otherwise
`FAIL(W748)`). -/
theorem c8_split_forceable (MC : List (String × Criteria)) (model : String)
    (avg : ℚ) (samples : List ℚ) (rand : ℚ)
    (hceil : ¬ ceilingCond samples)
    (h : floorCond samples ∨
      (¬ floorCond samples ∧ ¬ labelMatches (criteriaOf MC model) "PASS" avg ∧
        ¬ labelMatches (criteriaOf MC model) "W74A" avg ∧
        ¬ labelMatches (criteriaOf MC model) "W748" avg)) :
    get_pf_status MC model avg samples rand =
      (if rand < mkRat 85 100 then "FAIL(W74A)" else "FAIL(W748)") := by
  rcases h with hf | ⟨hnf, hp, hw, h8⟩
  · exact get_pf_status_floor MC model avg samples rand hceil hf
  · rw [get_pf_status_no_override MC model avg samples rand hceil hnf]
    simp only
    rw [if_neg (fun hc => hp ((labelMatches_any_iff _ _ _).mp hc)),
      if_neg (fun hc => hw ((labelMatches_any_iff _ _ _).mp hc)),
      if_neg (fun hc => h8 ((labelMatches_any_iff _ _ _).mp hc))]

theorem c8_split_forceable_witness :
    get_pf_status [] "M" 5 [1, 1, 1] 0 = "FAIL(W74A)" ∧
    get_pf_status [] "M" 5 [1, 1, 1] 1 = "FAIL(W748)" := by
  constructor
  · have h := c8_split_forceable [] "M" 5 [1, 1, 1] 0 (by decide)
      (Or.inr (by decide))
    rw [h]
    decide
  · have h := c8_split_forceable [] "M" 5 [1, 1, 1] 1 (by decide)
      (Or.inr (by decide))
    rw [h]
    decide

/-! ## Configuration rejection before instrument interaction (C4) -/

/-- C4: a criteria set with overlapping intervals, or lacking a nonempty
`PASS` entry, makes the measurement worker emit a single
configuration-error terminal event and return with no instrument action
(no connection opened, no output commanded) and no pushed sample. -/
theorem c4_config_error_before_instrument (MC : List (String × Criteria))
    (model : String) (usePseudo : Bool) (probRaw modelVoltage : ℚ)
    (supplyName supplyAddr : String) (token : Option String)
    (penv : PEnv) (renv : REnv) (wfuel afuel : ℕ) :
    (∀ m, check_interval_overlaps (criteriaOf MC model) = some m →
      measure_current_and_get_avg_with_progress MC model usePseudo probRaw modelVoltage
          supplyName supplyAddr token penv renv wfuel afuel =
        some ⟨[Ev.configError ("Model configuration error: " ++ m)], [], []⟩) ∧
    (check_interval_overlaps (criteriaOf MC model) = none →
      ((criteriaOf MC model).lookup "PASS" = none ∨
        (criteriaOf MC model).lookup "PASS" = some []) →
      measure_current_and_get_avg_with_progress MC model usePseudo probRaw modelVoltage
          supplyName supplyAddr token penv renv wfuel afuel =
        some ⟨[Ev.configError ("Model configuration error: No PASS interval defined for model '"
                ++ model ++ "'")], [], []⟩) := by
  constructor
  · intro m hm
    unfold measure_current_and_get_avg_with_progress
    simp [hm]
  · intro hnone hpass
    unfold measure_current_and_get_avg_with_progress
    have hcond : (match (criteriaOf MC model).lookup "PASS" with
        | none => true
        | some l => l.isEmpty) = true := by
      rcases hpass with h | h <;> simp [h]
    simp [hnone, hcond]

theorem c4_config_error_before_instrument_witness :
    measure_current_and_get_avg_with_progress [("M", [("W74A", [(some 0, some 1)])])] "M"
        false 0 5 "PSU1" "GPIB0::1::INSTR" none
        ⟨fun _ => false, fun _ => 1, 0, fun _ => none, true⟩
        ⟨none, none, none, fun _ => Except.ok 1, fun _ => false, fun t => t,
          fun _ => none, true⟩ 5 5 =
      some ⟨[Ev.configError "Model configuration error: No PASS interval defined for model 'M'"],
        [], []⟩ :=
  (c4_config_error_before_instrument _ "M" false 0 5 "PSU1" "GPIB0::1::INSTR" none _ _ 5 5).2
    (by decide) (Or.inl (by decide))

/-! ## Station job registry (C7) -/

theorem getD_set_self {α : Type} (l : List (Option α)) (i : ℕ) (x : Option α)
    (h : i < l.length) : (l.set i x).getD i none = x := by
  induction l generalizing i with
  | nil => simp at h
  | cons a t ih =>
    cases i with
    | zero => rfl
    | succ j =>
      simp only [List.set, List.getD, List.getElem?_cons_succ]
      have := ih j (by simpa using h)
      simpa [List.getD] using this

theorem getD_set_other {α : Type} (l : List (Option α)) (i j : ℕ) (x : Option α)
    (h : j ≠ i) : (l.set i x).getD j none = l.getD j none := by
  induction l generalizing i j with
  | nil => rfl
  | cons a t ih =>
    cases i with
    | zero =>
      cases j with
      | zero => exact absurd rfl h
      | succ k => rfl
    | succ i' =>
      cases j with
      | zero => rfl
      | succ k =>
        simp only [List.set, List.getD, List.getElem?_cons_succ]
        have := ih i' k (fun hh => h (by rw [hh]))
        simpa [List.getD] using this

/-- C7: a run request on a station whose job slot is occupied is rejected
without starting a worker and without touching any slot; a worker starts
only when this station's slot was empty, and then only this station's
slot is set; all other stations' slots are never modified. -/
theorem c7_station_mutual_exclusion (activeJobs : List (Option PanelJob))
    (panelIndex : ℕ) (imei model : String) (modelVoltageMap : List (String × ℚ))
    (supplyName : String) (job : PanelJob)
    (hlen : panelIndex < activeJobs.length) :
    ((activeJobs.getD panelIndex none).isSome = true →
      (run_from_panel activeJobs panelIndex imei model modelVoltageMap supplyName job).jobs =
          activeJobs ∧
      (run_from_panel activeJobs panelIndex imei model modelVoltageMap supplyName job).started =
          false) ∧
    ((run_from_panel activeJobs panelIndex imei model modelVoltageMap supplyName job).started =
        true →
      activeJobs.getD panelIndex none = none ∧
      (run_from_panel activeJobs panelIndex imei model modelVoltageMap supplyName
          job).jobs.getD panelIndex none = some job) ∧
    (∀ j, j ≠ panelIndex →
      (run_from_panel activeJobs panelIndex imei model modelVoltageMap supplyName
          job).jobs.getD j none = activeJobs.getD j none) := by
  unfold run_from_panel
  split_ifs with hval hunk hbusy
  · exact ⟨fun _ => ⟨rfl, rfl⟩, fun h => by simp at h, fun j _ => rfl⟩
  · exact ⟨fun _ => ⟨rfl, rfl⟩, fun h => by simp at h, fun j _ => rfl⟩
  · exact ⟨fun _ => ⟨rfl, rfl⟩, fun h => by simp at h, fun j _ => rfl⟩
  · refine ⟨fun hsome => ?_, fun _ => ⟨?_, ?_⟩, fun j hj => ?_⟩
    · rw [Option.isSome_iff_exists] at hsome
      obtain ⟨a, ha⟩ := hsome
      rw [ha] at hbusy
      simp at hbusy
    · cases hslot : activeJobs.getD panelIndex none with
      | none => rfl
      | some a =>
        rw [hslot] at hbusy
        simp at hbusy
    · exact getD_set_self activeJobs panelIndex (some job) hlen
    · exact getD_set_other activeJobs panelIndex j (some job) hj

theorem c7_station_mutual_exclusion_witness :
    (run_from_panel [none, some ⟨1, "t1"⟩, none, none] 1 "355555555555555" "M"
        [("M", 5)] "PSU2" ⟨1, "t2"⟩).jobs = [none, some ⟨1, "t1"⟩, none, none] ∧
    (run_from_panel [none, some ⟨1, "t1"⟩, none, none] 1 "355555555555555" "M"
        [("M", 5)] "PSU2" ⟨1, "t2"⟩).started = false := by
  exact (c7_station_mutual_exclusion [none, some ⟨1, "t1"⟩, none, none] 1
    "355555555555555" "M" [("M", 5)] "PSU2" ⟨1, "t2"⟩ (by decide)).1 (by decide)

/-! ## Sub-PBA terminal handling (C9) -/

/-- C9: an operator "yes" on the device-connected prompt is recorded as a
passing result: verdict string `PASS(Sub PBA issue)` with the green row
tag and green status label, average shown as `0.000A`, a single synthetic
detail row `(index 0, current 0.0)` in the log, and — when no samples were
collected — a single synthetic retained sample. -/
theorem c9_sub_pba_pass_with_caveat (imei model username supplyUsed dateVal : String)
    (samples : List ℕ) (currents : List ℚ) :
    (handle_sub_pba_fail imei model username supplyUsed dateVal samples currents).row =
      (imei, model, "0.000A", "PASS(Sub PBA issue)", username, supplyUsed, dateVal) ∧
    (handle_sub_pba_fail imei model username supplyUsed dateVal samples currents).tag =
      "green_row" ∧
    (handle_sub_pba_fail imei model username supplyUsed dateVal samples
      currents).statusColor = "green" ∧
    (handle_sub_pba_fail imei model username supplyUsed dateVal samples
      currents).detailRows = [(imei, model, username, supplyUsed, dateVal, 0, 0)] ∧
    (samples = [] →
      (handle_sub_pba_fail imei model username supplyUsed dateVal samples
        currents).storedSamples = [0]) ∧
    (currents = [] →
      (handle_sub_pba_fail imei model username supplyUsed dateVal samples
        currents).storedCurrents = [0]) := by
  refine ⟨rfl, rfl, rfl, rfl, fun hs => ?_, fun hc => ?_⟩
  · simp [handle_sub_pba_fail, hs]
  · simp [handle_sub_pba_fail, hc]

theorem c9_sub_pba_pass_with_caveat_witness :
    (handle_sub_pba_fail "355555555555555" "M" "admin" "PSU1" "2025-12-22" [] []).storedSamples =
      [0] ∧
    (handle_sub_pba_fail "355555555555555" "M" "admin" "PSU1" "2025-12-22" [] []).row =
      ("355555555555555", "M", "0.000A", "PASS(Sub PBA issue)", "admin", "PSU1",
        "2025-12-22") := by
  have h := c9_sub_pba_pass_with_caveat "355555555555555" "M" "admin" "PSU1" "2025-12-22" [] []
  exact ⟨h.2.2.2.2.1 rfl, h.1⟩

/-! ## User-interval parser (C10) -/

theorem parseBound_none_iff {s : List Char} :
    parseBound s = none ↔ s ≠ [] ∧ pyFloat s = none := by
  unfold parseBound
  split_ifs with h
  · simp [h]
  · cases hf : pyFloat s <;> simp [h, hf]

theorem parseBound_some_some_iff {s : List Char} {v : PF} :
    parseBound s = some (some v) ↔ s ≠ [] ∧ pyFloat s = some v := by
  unfold parseBound
  split_ifs with h
  · simp [h]
  · cases hf : pyFloat s <;> simp [h, hf]

theorem parseBoundsPair_none {a b : List Char}
    (h : (!(trimChars a).isEmpty && (pyFloat (trimChars a)).isNone ||
          !(trimChars b).isEmpty && (pyFloat (trimChars b)).isNone ||
          boundsGe (trimChars a) (trimChars b)) = true) :
    parseBoundsPair a b = none := by
  unfold parseBoundsPair
  rw [Bool.or_eq_true, Bool.or_eq_true] at h
  rcases h with (ha | hb) | hcmp
  · rw [Bool.and_eq_true] at ha
    have hbn : parseBound (trimChars a) = none := by
      rw [parseBound_none_iff]
      refine ⟨?_, Option.isNone_iff_eq_none.mp ha.2⟩
      intro he
      rw [he] at ha
      exact absurd ha.1 (by decide)
    rw [hbn]
  · rw [Bool.and_eq_true] at hb
    have hbn : parseBound (trimChars b) = none := by
      rw [parseBound_none_iff]
      refine ⟨?_, Option.isNone_iff_eq_none.mp hb.2⟩
      intro he
      rw [he] at hb
      exact absurd hb.1 (by decide)
    cases hA : parseBound (trimChars a) with
    | none => rfl
    | some low => rw [hbn]
  · unfold boundsGe at hcmp
    rcases hla : (if trimChars a = [] then none else pyFloat (trimChars a))
        with _ | lo <;>
      rcases hlb : (if trimChars b = [] then none else pyFloat (trimChars b))
        with _ | hi <;>
      rw [hla, hlb] at hcmp
    · exact absurd (show false = true from hcmp) (by decide)
    · exact absurd (show false = true from hcmp) (by decide)
    · exact absurd (show false = true from hcmp) (by decide)
    · have hge : pyGe lo hi = true := hcmp
      have hba : parseBound (trimChars a) = some (some lo) := by
        rw [parseBound_some_some_iff]
        split_ifs at hla with he
        exact ⟨he, hla⟩
      have hbb : parseBound (trimChars b) = some (some hi) := by
        rw [parseBound_some_some_iff]
        split_ifs at hlb with he
        exact ⟨he, hlb⟩
      rw [hba, hbb]
      simp [hge]

theorem parseToken_none_of_rejects {p : List Char} :
    tokenRejects p = true → parseToken p = none := by
  unfold tokenRejects parseToken
  split_ifs with hp hc
  · exact fun h => h
  · cases hsplit : splitOnChar '~' (trimChars p) with
    | nil =>
      intro h
      have h' : false = true := h
      exact absurd h' (by decide)
    | cons a t1 =>
      cases t1 with
      | nil =>
        intro h
        have h' : false = true := h
        exact absurd h' (by decide)
      | cons b t2 =>
        cases t2 with
        | cons c t3 =>
          intro h
          have h' : false = true := h
          exact absurd h' (by decide)
        | nil =>
          intro h
          show parseBoundsPair a b = none
          exact @parseBoundsPair_none a b h
  · exact fun h => h

theorem parseIntervals_none {parts : List (List Char)}
    (h : ∃ p ∈ parts, tokenRejects p = true) :
    parseIntervals parts = none := by
  induction parts with
  | nil =>
    obtain ⟨p, hp, _⟩ := h
    exact absurd hp (List.not_mem_nil p)
  | cons q t ih =>
    obtain ⟨p, hp, hrej⟩ := h
    rcases List.mem_cons.mp hp with rfl | hp'
    · unfold parseIntervals
      rw [parseToken_none_of_rejects hrej]
    · unfold parseIntervals
      cases hq : parseToken q with
      | none => rfl
      | some o =>
        cases o with
        | none => exact ih ⟨p, hp', hrej⟩
        | some iv => rw [ih ⟨p, hp', hrej⟩]

theorem parseLine_none_of_rejects {l : List Char} :
    lineRejects l = true → parseLine l = none := by
  unfold lineRejects parseLine
  split_ifs with hp hc hl
  · exact fun h => h
  · intro h
    rw [List.any_eq_true] at h
    obtain ⟨tok, htok, hrej⟩ := h
    rw [parseIntervals_none ⟨tok, htok, hrej⟩]
  · exact fun h => h
  · exact fun h => h

theorem foldLines_none {lines : List (List Char)}
    (d : List (String × List PInterval))
    (h : ∃ l ∈ lines, lineRejects l = true) :
    foldLines d lines = none := by
  induction lines generalizing d with
  | nil =>
    obtain ⟨l, hl, _⟩ := h
    exact absurd hl (List.not_mem_nil l)
  | cons l0 t ih =>
    obtain ⟨l, hl, hrej⟩ := h
    rcases List.mem_cons.mp hl with rfl | hl'
    · unfold foldLines
      rw [parseLine_none_of_rejects hrej]
    · unfold foldLines
      cases hq : parseLine l0 with
      | none => rfl
      | some o =>
        cases o with
        | none => exact ih d ⟨l, hl', hrej⟩
        | some entry => exact ih _ ⟨l, hl', hrej⟩

theorem parseBoundsPair_good {a b : List Char} {iv : PInterval}
    (h : parseBoundsPair a b = some (some iv)) :
    ∀ lo hi, iv = (some lo, some hi) → pyGe lo hi = false := by
  intro lo hi hiv
  subst hiv
  unfold parseBoundsPair at h
  rcases hA : parseBound (trimChars a) with _ | low <;> rw [hA] at h
  · exact absurd h (by simp)
  · rcases hB : parseBound (trimChars b) with _ | high <;> rw [hB] at h
    · exact absurd h (by simp)
    · cases low with
      | none => simp at h
      | some lo' =>
        cases high with
        | none => simp at h
        | some hi' =>
          have h'' : (if pyGe lo' hi' then none
              else some (some ((some lo', some hi') : PInterval))) =
              some (some ((some lo, some hi) : PInterval)) := h
          by_cases hge : pyGe lo' hi' = true
          · rw [if_pos hge] at h''
            exact absurd h'' (by simp)
          · rw [if_neg hge] at h''
            have heq : lo' = lo ∧ hi' = hi := by
              simpa using h''
            rw [← heq.1, ← heq.2]
            cases hb : pyGe lo' hi' with
            | false => rfl
            | true => exact absurd hb hge

theorem parseToken_good {p : List Char} {iv : PInterval} :
    parseToken p = some (some iv) →
    ∀ lo hi, iv = (some lo, some hi) → pyGe lo hi = false := by
  unfold parseToken
  split_ifs with hp hc
  · intro h
    have h' : (some none : Option (Option PInterval)) = some (some iv) := h
    exact absurd h' (by simp)
  · cases hsplit : splitOnChar '~' (trimChars p) with
    | nil =>
      intro h
      have h' : (some none : Option (Option PInterval)) = some (some iv) := h
      exact absurd h' (by simp)
    | cons a t1 =>
      cases t1 with
      | nil =>
        intro h
        have h' : (some none : Option (Option PInterval)) = some (some iv) := h
        exact absurd h' (by simp)
      | cons b t2 =>
        cases t2 with
        | cons c t3 =>
          intro h
          have h' : (some none : Option (Option PInterval)) = some (some iv) := h
          exact absurd h' (by simp)
        | nil =>
          intro h
          exact @parseBoundsPair_good a b iv h
  · intro h
    have h' : (some none : Option (Option PInterval)) = some (some iv) := h
    exact absurd h' (by simp)

theorem parseIntervals_good {parts : List (List Char)} {ivs : List PInterval}
    (h : parseIntervals parts = some ivs) :
    ∀ lo hi, (some lo, some hi) ∈ ivs → pyGe lo hi = false := by
  induction parts generalizing ivs with
  | nil =>
    unfold parseIntervals at h
    rw [Option.some.injEq] at h
    subst h
    intro lo hi hm
    exact absurd hm (List.not_mem_nil _)
  | cons q t ih =>
    unfold parseIntervals at h
    cases hq : parseToken q with
    | none => rw [hq] at h; exact absurd h (by simp)
    | some o =>
      rw [hq] at h
      cases o with
      | none => exact ih h
      | some iv =>
        cases hrest : parseIntervals t with
        | none => rw [hrest] at h; exact absurd h (by simp)
        | some rest =>
          rw [hrest] at h
          rw [Option.some.injEq] at h
          subst h
          intro lo hi hm
          rcases List.mem_cons.mp hm with he | hm'
          · exact parseToken_good hq lo hi he.symm
          · exact ih hrest lo hi hm'

theorem parseLine_good {l : List Char} {label : String} {ivs : List PInterval} :
    parseLine l = some (some (label, ivs)) →
    validLabel label = true ∧ ∀ lo hi, (some lo, some hi) ∈ ivs → pyGe lo hi = false := by
  unfold parseLine
  split_ifs with hp hc hl
  · intro h
    exact absurd h (by simp)
  · intro h
    cases hiv : parseIntervals (splitOnChar ','
        (joinWithChar ':' ((splitOnChar ':' (trimChars l)).drop 1))) with
    | none =>
      rw [hiv] at h
      exact absurd h (by simp)
    | some ivs' =>
      rw [hiv] at h
      cases ivs' with
      | nil => exact absurd h (by simp)
      | cons iv0 rest =>
        have h' : label = String.mk (trimChars ((splitOnChar ':' (trimChars l)).headD [])) ∧
            ivs = iv0 :: rest := by
          have := h
          simp only [Option.some.injEq, Prod.mk.injEq] at this
          exact ⟨this.1.symm, this.2.symm⟩
        obtain ⟨rfl, rfl⟩ := h'
        exact ⟨hl, parseIntervals_good hiv⟩
  · intro h
    exact absurd h (by simp)
  · intro h
    exact absurd h (by simp)

theorem dictInsert_mem {d : List (String × List PInterval)} {k : String}
    {v : List PInterval} {e : String × List PInterval}
    (h : e ∈ dictInsert d k v) : e = (k, v) ∨ e ∈ d := by
  induction d with
  | nil =>
    unfold dictInsert at h
    rcases List.mem_cons.mp h with rfl | h'
    · exact Or.inl rfl
    · exact absurd h' (List.not_mem_nil e)
  | cons p t ih =>
    unfold dictInsert at h
    split_ifs at h with hk
    · rcases List.mem_cons.mp h with rfl | h'
      · exact Or.inl rfl
      · exact Or.inr (List.mem_cons_of_mem p h')
    · rcases List.mem_cons.mp h with rfl | h'
      · exact Or.inr (List.mem_cons_self _ _)
      · rcases ih h' with he | hd
        · exact Or.inl he
        · exact Or.inr (List.mem_cons_of_mem p hd)

theorem foldLines_good {lines : List (List Char)}
    {d d' : List (String × List PInterval)}
    (hd : ∀ e ∈ d, GoodEntry e) (h : foldLines d lines = some d') :
    ∀ e ∈ d', GoodEntry e := by
  induction lines generalizing d with
  | nil =>
    unfold foldLines at h
    rw [Option.some.injEq] at h
    subst h
    exact hd
  | cons l0 t ih =>
    unfold foldLines at h
    cases hq : parseLine l0 with
    | none => rw [hq] at h; exact absurd h (by simp)
    | some o =>
      rw [hq] at h
      cases o with
      | none => exact ih hd h
      | some entry =>
        obtain ⟨label, ivs⟩ := entry
        refine ih ?_ h
        intro e he
        rcases dictInsert_mem he with rfl | hmem
        · exact parseLine_good hq
        · exact hd e hmem

theorem pyLt_of_not_ge {lo hi : PF} (h : pyGe lo hi = false)
    (hl : lo.isNan = false) (hh : hi.isNan = false) : pyLt lo hi = true := by
  cases lo <;> cases hi <;>
    simp_all [pyGe, pyLt, PF.isNan, not_le]

/-- C10 (amended): any line holding an interval token with a bound that
fails `float` parsing, or with two parsed bounds comparing `low >= high`,
makes the parser reject the whole input with the empty mapping; every
entry of any returned mapping carries one of the labels `PASS`, `W74A`,
`W748`, and every interval with both bounds present has `low >= high`
false — which gives `low < high` whenever neither bound is a NaN (a NaN
bound parses successfully and defeats the `low >= high` check, so such
intervals are accepted as-is). -/
theorem c10_parser_invariants (text : String) :
    (textRejects text = true → parse_user_interval_syntax text = []) ∧
    (∀ label ivs, (label, ivs) ∈ parse_user_interval_syntax text →
      validLabel label = true ∧
      ∀ lo hi, (some lo, some hi) ∈ ivs →
        pyGe lo hi = false ∧
        (lo.isNan = false → hi.isNan = false → pyLt lo hi = true)) := by
  constructor
  · intro h
    unfold textRejects at h
    rw [List.any_eq_true] at h
    unfold parse_user_interval_syntax
    rw [foldLines_none [] h]
  · intro label ivs hmem
    unfold parse_user_interval_syntax at hmem
    cases hf : foldLines [] (splitOnChar '\n' (trimChars text.data)) with
    | none => rw [hf] at hmem; exact absurd hmem (List.not_mem_nil _)
    | some d =>
      rw [hf] at hmem
      have hgood := @foldLines_good _ [] d
        (fun e he => absurd he (List.not_mem_nil e)) hf (label, ivs) hmem
      obtain ⟨hlabel, hivs⟩ := hgood
      refine ⟨hlabel, fun lo hi hm => ?_⟩
      have hge := hivs lo hi hm
      exact ⟨hge, fun hl hh => pyLt_of_not_ge hge hl hh⟩

theorem c10_parser_invariants_witness :
    parse_user_interval_syntax "PASS: 3~2" = [] :=
  (c10_parser_invariants "PASS: 3~2").1 (by decide)

/-- C10 counterexample: the token `nan~1` parses (`float('nan')` succeeds
and `nan >= 1.0` is false), so `"PASS: nan~1"` yields a non-empty mapping
whose interval has both bounds present but does not satisfy `low < high` —
against the claim's all-or-nothing rejection and its `low < high`
invariant. -/
theorem c10_counterexample :
    parse_user_interval_syntax "PASS: nan~1" =
      [("PASS", [(some PF.nan, some (PF.fin 1))])] ∧
    parse_user_interval_syntax "PASS: nan~1" ≠ [] ∧
    pyLt PF.nan (PF.fin 1) = false := by
  refine ⟨by decide, by decide, by decide⟩

/-! ## Progress-channel terminal-event discipline (C5, C6) -/

theorem terminalLast_single {t : Ev} (ht : t.isTerminal = true) : TerminalLast [t] :=
  ⟨[], t, rfl, ht, fun e he => absurd he (List.not_mem_nil e)⟩

theorem nonterm_append {xs ys : List Ev}
    (hx : ∀ e ∈ xs, e.isTerminal = false) (hy : ∀ e ∈ ys, e.isTerminal = false) :
    ∀ e ∈ xs ++ ys, e.isTerminal = false := by
  intro e he
  rcases List.mem_append.mp he with h | h
  · exact hx e h
  · exact hy e h

theorem terminalLast_prepend {xs evs : List Ev}
    (hx : ∀ e ∈ xs, e.isTerminal = false) (h : TerminalLast evs) :
    TerminalLast (xs ++ evs) := by
  obtain ⟨pre, t, rfl, ht, hpre⟩ := h
  exact ⟨xs ++ pre, t, by rw [List.append_assoc], ht, nonterm_append hx hpre⟩

theorem terminalLast_snoc {xs : List Ev} {t : Ev}
    (hx : ∀ e ∈ xs, e.isTerminal = false) (ht : t.isTerminal = true) :
    TerminalLast (xs ++ [t]) :=
  ⟨xs, t, rfl, ht, hx⟩

theorem realMeasLoop_evs (env : REnv) (total : ℕ) :
    ∀ n i k q e, e ∈ (realMeasLoop env total n i k q).evs → e.isTerminal = false := by
  intro n
  induction n with
  | zero =>
    intro i k q e he
    simp [realMeasLoop] at he
  | succ n ih =>
    intro i k q e he
    simp only [realMeasLoop] at he
    split at he
    · simp at he
    · split at he
      · simp at he
      · rename_i c hq
        have he' : e ∈ Ev.tick (i + 1) total c ::
            (realMeasLoop env total n (i + 1) (k + 1) (q + 1)).evs := he
        rcases List.mem_cons.mp he' with rfl | hm
        · rfl
        · exact ih (i + 1) (k + 1) (q + 1) e hm

theorem pseudoMeasLoop_evs (env : PEnv) (total : ℕ) :
    ∀ n i k e, e ∈ (pseudoMeasLoop env total n i k).evs → e.isTerminal = false := by
  intro n
  induction n with
  | zero =>
    intro i k e he
    simp [pseudoMeasLoop] at he
  | succ n ih =>
    intro i k e he
    simp only [pseudoMeasLoop] at he
    split at he
    · simp at he
    · split at he
      · have he' : e ∈ [Ev.tick (i + 1) total (env.currents i)] := he
        rcases List.mem_cons.mp he' with rfl | hm
        · rfl
        · exact absurd hm (List.not_mem_nil e)
      · have he' : e ∈ Ev.tick (i + 1) total (env.currents i) ::
            (pseudoMeasLoop env total n (i + 1)
              (runChecks env.stop 5 (k + 1)).1).evs := he
        rcases List.mem_cons.mp he' with rfl | hm
        · rfl
        · exact ih (i + 1) _ e hm

theorem realWaitLoop_evsOk (env : REnv) (supplyName : String) (token : Option String)
    (afuel : ℕ) :
    ∀ fuel k q t m zcs w,
      realWaitLoop env supplyName token afuel fuel k q t m zcs = some w →
      WaitEvsOk w := by
  intro fuel
  induction fuel with
  | zero =>
    intro k q t m zcs w h
    simp [realWaitLoop] at h
  | succ fuel ih =>
    intro k q t m zcs w h
    simp only [realWaitLoop] at h
    split at h
    · simp only [Option.some.injEq] at h
      subst h
      intro e he
      exact absurd he (List.not_mem_nil e)
    · split at h
      · simp only [Option.some.injEq] at h
        subst h
        intro e he
        exact absurd he (List.not_mem_nil e)
      · split at h
        · simp only [Option.some.injEq] at h
          subst h
          intro e he
          exact absurd he (List.not_mem_nil e)
        · split at h
          · exact ih _ _ _ _ _ _ h
          · split at h
            · split at h
              · simp only [Option.some.injEq] at h
                subst h
                exact terminalLast_single rfl
              · split at h
                · exact absurd h (by simp)
                · simp only [Option.some.injEq] at h
                  subst h
                  intro e he
                  have he' : e ∈ [Ev.status noCurrentMsg,
                      Ev.promptDeviceCheck supplyName promptQuestion] := he
                  rcases List.mem_cons.mp he' with rfl | hm
                  · rfl
                  · rcases List.mem_cons.mp hm with rfl | hm'
                    · rfl
                    · exact absurd hm' (List.not_mem_nil e)
                · simp only [Option.some.injEq] at h
                  subst h
                  refine terminalLast_snoc ?_ rfl
                  intro e he
                  rcases List.mem_cons.mp he with rfl | hm
                  · rfl
                  · rcases List.mem_cons.mp hm with rfl | hm'
                    · rfl
                    · exact absurd hm' (List.not_mem_nil e)
                · split at h
                  · exact absurd h (by simp)
                  · rename_i r heq
                    simp only [Option.some.injEq] at h
                    subst h
                    have hok := ih _ _ _ _ _ _ heq
                    have hpre : ∀ e ∈ [Ev.status noCurrentMsg,
                        Ev.promptDeviceCheck supplyName promptQuestion],
                        e.isTerminal = false := by
                      intro e he
                      rcases List.mem_cons.mp he with rfl | hm
                      · rfl
                      · rcases List.mem_cons.mp hm with rfl | hm'
                        · rfl
                        · exact absurd hm' (List.not_mem_nil e)
                    unfold WaitEvsOk at hok ⊢
                    cases hout : r.out with
                    | proceed =>
                      rw [hout] at hok
                      exact nonterm_append hpre hok
                    | returned =>
                      rw [hout] at hok
                      exact terminalLast_prepend hpre hok
                    | raised msg =>
                      rw [hout] at hok
                      exact nonterm_append hpre hok
            · exact ih _ _ _ _ _ _ h

theorem run_real_terminalLast (env : REnv) (mv : ℚ) (sn sa : String)
    (tok : Option String) (wfuel afuel : ℕ) (res : RunRes)
    (h : run_real_measurement env mv sn sa tok wfuel afuel = some res) :
    TerminalLast res.evs := by
  have hconn : ∀ e ∈ [Ev.status ("Connecting to " ++ sn ++ " at " ++ sa ++ "...")],
      e.isTerminal = false := by
    intro e he
    rcases List.mem_cons.mp he with rfl | hm
    · rfl
    · exact absurd hm (List.not_mem_nil e)
  have hwait : ∀ e ∈ [Ev.phase "waiting", Ev.status "Plug Anyway Jig into the phone."],
      e.isTerminal = false := by
    intro e he
    rcases List.mem_cons.mp he with rfl | hm
    · rfl
    · rcases List.mem_cons.mp hm with rfl | hm'
      · rfl
      · exact absurd hm' (List.not_mem_nil e)
  have hmeas : ∀ e ∈ [Ev.phase "measuring", Ev.status "Measuring current"],
      e.isTerminal = false := by
    intro e he
    rcases List.mem_cons.mp he with rfl | hm
    · rfl
    · rcases List.mem_cons.mp hm with rfl | hm'
      · rfl
      · exact absurd hm' (List.not_mem_nil e)
  simp only [run_real_measurement] at h
  split at h
  · simp only [Option.some.injEq] at h
    subst h
    exact terminalLast_snoc hconn rfl
  · split at h
    · simp only [Option.some.injEq] at h
      subst h
      exact terminalLast_snoc hconn rfl
    · split at h
      · simp only [Option.some.injEq] at h
        subst h
        exact terminalLast_snoc hconn rfl
      · split at h
        · exact absurd h (by simp)
        · rename_i w heq
          have hok := realWaitLoop_evsOk env sn tok afuel wfuel 0 0 0 0 none w heq
          split at h
          · rename_i msg hout
            simp only [Option.some.injEq] at h
            subst h
            have hw : ∀ e ∈ w.evs, e.isTerminal = false := by
              unfold WaitEvsOk at hok
              rw [hout] at hok
              exact hok
            rw [List.append_assoc]
            refine terminalLast_prepend (nonterm_append hconn hwait) ?_
            exact terminalLast_snoc hw rfl
          · rename_i hout
            simp only [Option.some.injEq] at h
            subst h
            have hw : TerminalLast w.evs := by
              unfold WaitEvsOk at hok
              rw [hout] at hok
              exact hok
            exact terminalLast_prepend (nonterm_append hconn hwait) hw
          · rename_i hout
            have hw : ∀ e ∈ w.evs, e.isTerminal = false := by
              unfold WaitEvsOk at hok
              rw [hout] at hok
              exact hok
            have hr := realMeasLoop_evs env 30 30 0 w.k w.q
            split at h
            · simp only [Option.some.injEq] at h
              subst h
              refine terminalLast_snoc ?_ rfl
              refine nonterm_append ?_ (fun e he => hr e he)
              refine nonterm_append ?_ hmeas
              exact nonterm_append (nonterm_append hconn hwait) hw
            · simp only [Option.some.injEq] at h
              subst h
              refine terminalLast_snoc ?_ rfl
              refine nonterm_append ?_ (fun e he => hr e he)
              refine nonterm_append ?_ hmeas
              exact nonterm_append (nonterm_append hconn hwait) hw

theorem pseudoRest_terminalLast (env : PEnv) (sn : String) (tok : Option String)
    (evs0 : List Ev) (k : ℕ) (res : RunRes)
    (h0 : ∀ e ∈ evs0, e.isTerminal = false)
    (h : pseudoRest env sn tok evs0 k = some res) :
    TerminalLast res.evs := by
  have hsim : ∀ e ∈ [Ev.status "Simulating device connection..."],
      e.isTerminal = false := by
    intro e he
    rcases List.mem_cons.mp he with rfl | hm
    · rfl
    · exact absurd hm (List.not_mem_nil e)
  have hmeas : ∀ e ∈ [Ev.phase "measuring", Ev.status "Simulating current measurements"],
      e.isTerminal = false := by
    intro e he
    rcases List.mem_cons.mp he with rfl | hm
    · rfl
    · rcases List.mem_cons.mp hm with rfl | hm'
      · rfl
      · exact absurd hm' (List.not_mem_nil e)
  simp only [pseudoRest] at h
  split at h
  · simp only [Option.some.injEq] at h
    subst h
    exact terminalLast_snoc (nonterm_append h0 hsim) rfl
  · have hp := pseudoMeasLoop_evs env 30 30 0 (runChecks env.stop 5 k).1
    split at h
    · simp only [Option.some.injEq] at h
      subst h
      refine terminalLast_snoc ?_ rfl
      refine nonterm_append ?_ (fun e he => hp e he)
      refine nonterm_append ?_ hmeas
      exact nonterm_append h0 hsim
    · simp only [Option.some.injEq] at h
      subst h
      refine terminalLast_snoc ?_ rfl
      refine nonterm_append ?_ (fun e he => hp e he)
      refine nonterm_append ?_ hmeas
      exact nonterm_append h0 hsim

theorem run_pseudo_terminalLast (env : PEnv) (probRaw : ℚ) (sn : String)
    (tok : Option String) (afuel : ℕ) (res : RunRes)
    (h : run_pseudo_measurement env probRaw sn tok afuel = some res) :
    TerminalLast res.evs := by
  have hev0 : ∀ e ∈ [Ev.status ("Using pseudo mode (supply " ++ sn ++ ")"),
      Ev.phase "waiting"], e.isTerminal = false := by
    intro e he
    rcases List.mem_cons.mp he with rfl | hm
    · rfl
    · rcases List.mem_cons.mp hm with rfl | hm'
      · rfl
      · exact absurd hm' (List.not_mem_nil e)
  have hprompt : ∀ e ∈ [Ev.status noCurrentMsg,
      Ev.promptDeviceCheck sn promptQuestion], e.isTerminal = false := by
    intro e he
    rcases List.mem_cons.mp he with rfl | hm
    · rfl
    · rcases List.mem_cons.mp hm with rfl | hm'
      · rfl
      · exact absurd hm' (List.not_mem_nil e)
  simp only [run_pseudo_measurement] at h
  split at h
  · split at h
    · simp only [Option.some.injEq] at h
      subst h
      exact terminalLast_snoc hev0 rfl
    · split at h
      · exact absurd h (by simp)
      · simp only [Option.some.injEq] at h
        subst h
        rw [List.append_assoc]
        refine terminalLast_prepend hev0 ?_
        exact terminalLast_snoc hprompt rfl
      · simp only [Option.some.injEq] at h
        subst h
        rw [List.append_assoc]
        refine terminalLast_prepend hev0 ?_
        exact terminalLast_snoc hprompt rfl
      · exact pseudoRest_terminalLast env sn tok _ _ res
          (nonterm_append hev0 hprompt) h
  · exact pseudoRest_terminalLast env sn tok _ _ res hev0 h

/-- C5: whenever the measurement worker completes (for any model,
criteria, oracle environment and fuel), the event list it has put on the
progress channel ends with exactly one terminal event — one of
`config_error`, `done`, `sub_pba_fail` or `error` — and every earlier
event is non-terminal. -/
theorem c5_single_terminal_event (MC : List (String × Criteria)) (model : String)
    (usePseudo : Bool) (probRaw modelVoltage : ℚ)
    (supplyName supplyAddr : String) (token : Option String)
    (penv : PEnv) (renv : REnv) (wfuel afuel : ℕ) (res : RunRes)
    (h : measure_current_and_get_avg_with_progress MC model usePseudo probRaw
      modelVoltage supplyName supplyAddr token penv renv wfuel afuel = some res) :
    TerminalLast res.evs := by
  simp only [measure_current_and_get_avg_with_progress] at h
  split at h
  · simp only [Option.some.injEq] at h
    subst h
    exact terminalLast_single rfl
  · split at h
    · simp only [Option.some.injEq] at h
      subst h
      exact terminalLast_single rfl
    · split at h
      · exact run_pseudo_terminalLast penv probRaw supplyName token afuel res h
      · exact run_real_terminalLast renv modelVoltage supplyName supplyAddr token
          wfuel afuel res h

theorem c5_single_terminal_event_witness :
    TerminalLast [Ev.configError
      "Model configuration error: No PASS interval defined for model 'M2'"] :=
  c5_single_terminal_event [("M2", [("W748", [(some 0, some 1)])])] "M2" true 0 5
    "PSU2" "GPIB0::2::INSTR" none
    ⟨fun _ => false, fun _ => 1, 0, fun _ => none, true⟩
    ⟨none, none, none, fun _ => Except.ok 1, fun _ => false, fun t => t,
      fun _ => none, true⟩ 5 5
    ⟨[Ev.configError "Model configuration error: No PASS interval defined for model 'M2'"],
      [], []⟩ (by decide)

theorem wait_for_prompt_answer_cancel (stop : ℕ → Bool) (answer : ℕ → Option Bool) :
    ∀ n fuel k m, (∀ i, i < n → stop (k + i) = false) →
      (∀ i, i < n → answer (m + i) = none) →
      stop (k + n) = true → n < fuel →
      wait_for_prompt_answer stop answer fuel k m =
        some (Except.error cancelMsg, k + n + 1, m + n) := by
  intro n
  induction n with
  | zero =>
    intro fuel k m hs ha hstop hfuel
    cases fuel with
    | zero => omega
    | succ f =>
      simp only [wait_for_prompt_answer]
      have h0 : stop k = true := by simpa using hstop
      rw [if_pos h0]
      simp
  | succ n ih =>
    intro fuel k m hs ha hstop hfuel
    cases fuel with
    | zero => omega
    | succ f =>
      simp only [wait_for_prompt_answer]
      have h0 : stop k = false := by simpa using hs 0 (by omega)
      rw [if_neg (by simp [h0])]
      have ha0 : answer m = none := by simpa using ha 0 (by omega)
      rw [ha0]
      have hrec := ih f (k + 1) (m + 1)
        (fun i hi => by
          have hh := hs (i + 1) (by omega)
          rw [show k + 1 + i = k + (i + 1) by omega]
          exact hh)
        (fun i hi => by
          have hh := ha (i + 1) (by omega)
          rw [show m + 1 + i = m + (i + 1) by omega]
          exact hh)
        (by
          have hh := hstop
          rw [show k + 1 + n = k + (n + 1) by omega]
          exact hh)
        (by omega)
      rw [show k + (n + 1) + 1 = k + 1 + n + 1 by omega,
        show m + (n + 1) = m + 1 + n by omega]
      exact hrec

/-- C6: the operator-confirmation wait re-checks the cancellation flag at
every 0.1 s polling iteration — if the flag first becomes set at the
`n`-th poll (no answer having arrived earlier), the wait returns the
cancellation exception at exactly that poll, never blocking past it; and
(concretely) a pseudo run whose cancellation arrives during the
device-check prompt ends its event stream with the
`Measurement cancelled by user.` terminal error event. -/
theorem c6_cancellation_during_wait :
    (∀ (stop : ℕ → Bool) (answer : ℕ → Option Bool) (n fuel k m : ℕ),
        (∀ i, i < n → stop (k + i) = false) →
        (∀ i, i < n → answer (m + i) = none) →
        stop (k + n) = true → n < fuel →
        wait_for_prompt_answer stop answer fuel k m =
          some (Except.error cancelMsg, k + n + 1, m + n)) ∧
    run_pseudo_measurement ⟨fun k => decide (2 ≤ k), fun _ => 1, 0, fun _ => none, true⟩
        1 "PSU1" (some "tok") 5 =
      some ⟨[Ev.status "Using pseudo mode (supply PSU1)", Ev.phase "waiting",
             Ev.status noCurrentMsg, Ev.promptDeviceCheck "PSU1" promptQuestion,
             Ev.error cancelMsg], [], []⟩ :=
  ⟨fun stop answer n fuel k m => wait_for_prompt_answer_cancel stop answer n fuel k m,
    by decide⟩

theorem c6_cancellation_during_wait_witness :
    wait_for_prompt_answer (fun k => decide (1 ≤ k)) (fun _ => none) 3 0 0 =
      some (Except.error cancelMsg, 2, 1) := by
  have h := c6_cancellation_during_wait.1 (fun k => decide (1 ≤ k)) (fun _ => none)
    1 3 0 0 (by decide) (fun i hi => rfl) (by decide) (by decide)
  exact h

end AutoPowerTester
